import Mathlib

/-!
Verification of the tree engine of the Grammar-Mutator repository.

The sources under verification are `src/tree_mutation.c` (the mutation engine),
`src/f1_c_fuzz.c` (the generated per-rule grammar generators and their literal
pools) and the interface `include/tree.h`.  The implementation file `tree.c`
(node construction, cloning, replacement, serialization) is not part of the
sources; where one of its functions is needed it is modelled from the
specification and marked `Modelled from the spec:` in its doc comment.

The embedding is shallow and purely functional: C trees become a mutual
inductive (`node_t` / `node_list`), the PRNG (`random()`) becomes an explicit
stream of natural numbers, and recursion that the C code bounds via the global
`max_depth` becomes structural recursion on an explicit fuel argument (the
mutation engine passes fuel `max_depth + 1`, which makes the fuel-exhaustion
branch unreachable, mirroring the C termination argument).  A second, heap
based model (addresses into a mutable store) is used for the claims about
aliasing, ownership and freeing.
-/

namespace GrammarMutator

/-! ## Rule identifiers

Modelled from the spec: the header `f1_c_fuzz.h` defining the rule-id
enumeration is not among the sources.  Per the spec (§6) rule ids are dense
small integers starting at 1, with 0 reserved for the generic terminal marker
(`TERM_NODE`), and the dispatch table `gen_funcs` in `f1_c_fuzz.c` lists the
generators in id order starting at index 1.  -/

def TERM_NODE : Nat := 0
def START : Nat := 1
def JSON : Nat := 2
def ELEMENT : Nat := 3
def VALUE : Nat := 4
def OBJECT : Nat := 5
def MEMBERS : Nat := 6
def MEMBER : Nat := 7
def ARRAY : Nat := 8
def ELEMENTS : Nat := 9
def STRING : Nat := 10
def CHARACTERS : Nat := 11
def CHARACTER : Nat := 12
def ESC : Nat := 13
def ESCC : Nat := 14
def NUMBER : Nat := 15
def INT : Nat := 16
def DIGITS : Nat := 17
def DIGIT : Nat := 18
def ONENINE : Nat := 19
def FRAC : Nat := 20
def EXP : Nat := 21
def SIGN : Nat := 22
def WS : Nat := 23
def SP1 : Nat := 24
def SYMBOL : Nat := 25
def SYMBOL_1 : Nat := 26
def SYMBOL_2 : Nat := 27
def SYMBOL_1_1 : Nat := 28
def CHARACTER_1 : Nat := 29
def DIGIT_1 : Nat := 30

/-! ## The tree data model (`struct tree_node` in `tree.h`)

`id` is the node type (0 = terminal marker), `recursion_edge_size` mirrors the
field written as `node->recursion_edge_size` by the generated code,
`non_term_size` is the cached "number of non-terminal nodes in the subtree"
(`tree.h`), `val`/`val_len` model the `val_buf`/`val_len` byte buffer, and
`parent` models the value of the parent pointer (`none` = `NULL`).  Children
are an ordered list.  -/

mutual

inductive node_t : Type where
  | mk (id : Nat) (recursion_edge_size : Nat) (non_term_size : Nat)
       (val : List Nat) (val_len : Nat) (parent : Option Nat)
       (subnodes : node_list)
  deriving DecidableEq

inductive node_list : Type where
  | nil : node_list
  | cons (head : node_t) (tail : node_list) : node_list
  deriving DecidableEq

end

def node_t.id : node_t → Nat
  | .mk i _ _ _ _ _ _ => i

def node_t.recursion_edge_size : node_t → Nat
  | .mk _ r _ _ _ _ _ => r

def node_t.non_term_size : node_t → Nat
  | .mk _ _ n _ _ _ _ => n

def node_t.val : node_t → List Nat
  | .mk _ _ _ v _ _ _ => v

def node_t.val_len : node_t → Nat
  | .mk _ _ _ _ l _ _ => l

def node_t.parent : node_t → Option Nat
  | .mk _ _ _ _ _ p _ => p

def node_t.subnodes : node_t → node_list
  | .mk _ _ _ _ _ _ s => s

def node_list.length : node_list → Nat
  | .nil => 0
  | .cons _ t => t.length + 1

def node_list.toList : node_list → List node_t
  | .nil => []
  | .cons h t => h :: t.toList

def node_list.ofList : List node_t → node_list
  | [] => .nil
  | h :: t => .cons h (node_list.ofList t)

def node_list.get? : node_list → Nat → Option node_t
  | .nil, _ => none
  | .cons h _, 0 => some h
  | .cons _ t, i + 1 => t.get? i

/-- Sum of the `non_term_size` fields of the list members (not a recursive
recount; it reads the cached fields, as the size invariant talks about). -/
def node_list.sum_non_term : node_list → Nat
  | .nil => 0
  | .cons h t => h.non_term_size + t.sum_non_term

/-- The bytes of a C string literal, as the generated code's `const char*`
pool entries hold them (all pool entries are ASCII, one byte per char). -/
def str_bytes (s : String) : List Nat := s.toList.map Char.toNat

/-- The function `node_create` (declared in `tree.h`, body in the absent `tree.c`).
Modelled from the spec: a freshly created node has the given rule id, no
children, no value and an absent parent; its `non_terminal_count` is 1 for a
non-terminal and 0 for the terminal marker id 0 (§3 invariant applied to a
childless node).  -/
def node_create (id : Nat) : node_t :=
  .mk id 0 (if id = 0 then 0 else 1) [] 0 none .nil

/-- The function `node_set_val` (declared in `tree.h`, body in the absent `tree.c`).
Modelled from the spec: stores the given literal and its length on the node;
`memcpy` semantics copy exactly `val_len` bytes of the buffer.  -/
def node_set_val (n : node_t) (s : String) (l : Nat) : node_t :=
  match n with
  | .mk i r nts _ _ p subs => .mk i r nts ((str_bytes s).take l) l p subs

/-- The function `node_create_with_val` (declared in `tree.h`, body in the absent
`tree.c`).  Modelled from the spec: create followed by setting the value.  -/
def node_create_with_val (id : Nat) (s : String) (l : Nat) : node_t :=
  node_set_val (node_create id) s l

/-! ## The literal pools of `f1_c_fuzz.c` (lines 14-102), transcribed verbatim:
for each rule a `const char*` array and a parallel `const int` length array. -/

def pool_start : List String := ["null", "false", "true"]
def pool_l_start : List Nat := [4, 5, 4]

def pool_json : List String := ["true", "false", "null"]
def pool_l_json : List Nat := [4, 5, 4]

def pool_element : List String := ["null", "false", "true"]
def pool_l_element : List Nat := [4, 5, 4]

def pool_value : List String := ["null", "true", "false"]
def pool_l_value : List Nat := [4, 4, 5]

def pool_object : List String := ["\x7b\x7d"]
def pool_l_object : List Nat := [2]

def pool_members : List String := ["\"\":true", "\"\":null", "\"\":false"]
def pool_l_members : List Nat := [7, 7, 8]

def pool_member : List String := ["\"\":false", "\"\":null", "\"\":true"]
def pool_l_member : List Nat := [8, 7, 7]

def pool_array : List String := ["[]"]
def pool_l_array : List Nat := [2]

def pool_elements : List String := ["true", "null", "false"]
def pool_l_elements : List Nat := [4, 4, 5]

def pool_string : List String := ["\"\""]
def pool_l_string : List Nat := [2]

def pool_characters : List String := [""]
def pool_l_characters : List Nat := [0]

def pool_character : List String :=
  ["T", "3", "h", "n", "i", "N", "V", "e", "W", "z", "2", "-", "s", "?", "|",
   "H", "L", "U", "\x7d", "1", "D", "7", "&", "Z", "0", "X", "\"", "C", "J", "8",
   "$", "!", "#", "Q", "4", "@", "`", ";", "p", "k", "(", "<", "j", "P", "R",
   "O", "/", "l", "d", "w", "o", "^", "v", "=", "m", "\x7b", "M", "y", "]", "E",
   "_", " ", ".", "9", "B", "r", ",", "q", "u", "G", "~", "S", ">", "f", "t",
   "[", "g", "6", ":", "A", "Y", "5", "*", "a", "F", "I", "b", "%", ")", "c",
   "x", "K", "+"]
def pool_l_character : List Nat :=
  [1, 1, 1, 1, 1, 1, 1, 1, 1, 1, 1, 1, 1, 1, 1, 1, 1, 1, 1, 1, 1, 1, 1, 1, 1,
   1, 1, 1, 1, 1, 1, 1, 1, 1, 1, 1, 1, 1, 1, 1, 1, 1, 1, 1, 1, 1, 1, 1, 1, 1,
   1, 1, 1, 1, 1, 1, 1, 1, 1, 1, 1, 1, 1, 1, 1, 1, 1, 1, 1, 1, 1, 1, 1, 1, 1,
   1, 1, 1, 1, 1, 1, 1, 1, 1, 1, 1, 1, 1, 1, 1, 1, 1, 1]

def pool_esc : List String := ["\\t", "\\r", "\\b", "\\\"", "\\\\", "\\f", "\\n"]
def pool_l_esc : List Nat := [2, 2, 2, 2, 2, 2, 2]

def pool_escc : List String := ["\"", "b", "n", "\\", "r", "t", "f"]
def pool_l_escc : List Nat := [1, 1, 1, 1, 1, 1, 1]

def pool_number : List String := ["0"]
def pool_l_number : List Nat := [1]

def pool_int : List String := ["0"]
def pool_l_int : List Nat := [1]

def pool_digits : List String := ["0"]
def pool_l_digits : List Nat := [1]

def pool_digit : List String := ["0"]
def pool_l_digit : List Nat := [1]

def pool_onenine : List String := ["6", "5", "8", "2", "3", "1", "7", "9", "4"]
def pool_l_onenine : List Nat := [1, 1, 1, 1, 1, 1, 1, 1, 1]

def pool_frac : List String := [""]
def pool_l_frac : List Nat := [0]

def pool_exp : List String := [""]
def pool_l_exp : List Nat := [0]

def pool_sign : List String := ["-", "", "+"]
def pool_l_sign : List Nat := [1, 0, 1]

def pool_ws : List String := [""]
def pool_l_ws : List Nat := [0]

def pool_sp1 : List String := [" ", "\t", "\r", "\n"]
def pool_l_sp1 : List Nat := [1, 1, 1, 1]

def pool_symbol : List String := [",\"\":true", ",\"\":null", ",\"\":false"]
def pool_l_symbol : List Nat := [8, 8, 9]

def pool_symbol_1 : List String := [",null", ",true", ",false"]
def pool_l_symbol_1 : List Nat := [5, 5, 6]

def pool_symbol_2 : List String := [""]
def pool_l_symbol_2 : List Nat := [0]

def pool_symbol_1_1 : List String := [""]
def pool_l_symbol_1_1 : List Nat := [0]

def pool_character_1 : List String := [""]
def pool_l_character_1 : List Nat := [0]

def pool_digit_1 : List String := ["0"]
def pool_l_digit_1 : List Nat := [1]

/-- The string pool of rule `rid` (the `pool_X` array consulted by the
generator `gen_X` past the depth bound). -/
def pool_strs : Nat → List String
  | 1 => pool_start
  | 2 => pool_json
  | 3 => pool_element
  | 4 => pool_value
  | 5 => pool_object
  | 6 => pool_members
  | 7 => pool_member
  | 8 => pool_array
  | 9 => pool_elements
  | 10 => pool_string
  | 11 => pool_characters
  | 12 => pool_character
  | 13 => pool_esc
  | 14 => pool_escc
  | 15 => pool_number
  | 16 => pool_int
  | 17 => pool_digits
  | 18 => pool_digit
  | 19 => pool_onenine
  | 20 => pool_frac
  | 21 => pool_exp
  | 22 => pool_sign
  | 23 => pool_ws
  | 24 => pool_sp1
  | 25 => pool_symbol
  | 26 => pool_symbol_1
  | 27 => pool_symbol_2
  | 28 => pool_symbol_1_1
  | 29 => pool_character_1
  | 30 => pool_digit_1
  | _ => []

/-- The length pool of rule `rid` (the `pool_l_X` array). -/
def pool_lens : Nat → List Nat
  | 1 => pool_l_start
  | 2 => pool_l_json
  | 3 => pool_l_element
  | 4 => pool_l_value
  | 5 => pool_l_object
  | 6 => pool_l_members
  | 7 => pool_l_member
  | 8 => pool_l_array
  | 9 => pool_l_elements
  | 10 => pool_l_string
  | 11 => pool_l_characters
  | 12 => pool_l_character
  | 13 => pool_l_esc
  | 14 => pool_l_escc
  | 15 => pool_l_number
  | 16 => pool_l_int
  | 17 => pool_l_digits
  | 18 => pool_l_digit
  | 19 => pool_l_onenine
  | 20 => pool_l_frac
  | 21 => pool_l_exp
  | 22 => pool_l_sign
  | 23 => pool_l_ws
  | 24 => pool_l_sp1
  | 25 => pool_l_symbol
  | 26 => pool_l_symbol_1
  | 27 => pool_l_symbol_2
  | 28 => pool_l_symbol_1_1
  | 29 => pool_l_character_1
  | 30 => pool_l_digit_1
  | _ => []

/-! ## The random stream

`random()` is modelled as an explicit stream of natural numbers: a function
`Nat → Nat`; consuming a draw yields the head and the shifted stream.
`map_rand` is `f1_c_fuzz.c`'s `static inline int map_rand(int v) { return
random() % v; }`.  -/

def Rand : Type := Nat → Nat

def rand_next (s : Rand) : Nat × Rand := (s 0, fun n => s (n + 1))

def map_rand (v : Nat) (r : Nat) : Nat := r % v

/-! ## The grammar generators (`gen_start` .. `gen_digit_1` of `f1_c_fuzz.c`)

All thirty generators share the same shape: create the node; if `depth >
max_depth`, draw a pool entry, set it as the node's value and return; else
draw a production case and generate the case's children in order, bumping
`non_term_size` by one for each non-terminal child (and `recursion_edge_size`
by one for each same-rule child).  They are embedded as one function over the
rule id.  The C recursion terminates because `depth` grows by one per call and
generation stops past `max_depth`; here that argument is made explicit by a
fuel parameter that decreases on every recursive call, with the callers of the
dispatch table passing fuel `max_depth + 1` so that the fuel-out branch
(which returns the freshly created node, i.e. the state the C code would be in
at that point) is never taken.  -/

/-- The past-the-bound branch shared by every generator: draw `map_rand n`,
index the two pool arrays with it, and set the value on the fresh node.  -/
def pool_node (rid : Nat) (n : Nat) (ps : List String) (ls : List Nat)
    (s : Rand) : node_t × Rand :=
  let r := rand_next s
  let v := map_rand n r.1
  (node_set_val (node_create rid) (ps.getD v "") (ls.getD v 0), r.2)

/-- The `if (depth > max_depth)` block of each generator, by rule id, with the
literal pool-size argument each generator passes to `map_rand`.  -/
def gen_pool : Nat → Rand → node_t × Rand
  | 1, s => pool_node 1 3 pool_start pool_l_start s
  | 2, s => pool_node 2 3 pool_json pool_l_json s
  | 3, s => pool_node 3 3 pool_element pool_l_element s
  | 4, s => pool_node 4 3 pool_value pool_l_value s
  | 5, s => pool_node 5 1 pool_object pool_l_object s
  | 6, s => pool_node 6 3 pool_members pool_l_members s
  | 7, s => pool_node 7 3 pool_member pool_l_member s
  | 8, s => pool_node 8 1 pool_array pool_l_array s
  | 9, s => pool_node 9 3 pool_elements pool_l_elements s
  | 10, s => pool_node 10 1 pool_string pool_l_string s
  | 11, s => pool_node 11 1 pool_characters pool_l_characters s
  | 12, s => pool_node 12 93 pool_character pool_l_character s
  | 13, s => pool_node 13 7 pool_esc pool_l_esc s
  | 14, s => pool_node 14 7 pool_escc pool_l_escc s
  | 15, s => pool_node 15 1 pool_number pool_l_number s
  | 16, s => pool_node 16 1 pool_int pool_l_int s
  | 17, s => pool_node 17 1 pool_digits pool_l_digits s
  | 18, s => pool_node 18 1 pool_digit pool_l_digit s
  | 19, s => pool_node 19 9 pool_onenine pool_l_onenine s
  | 20, s => pool_node 20 1 pool_frac pool_l_frac s
  | 21, s => pool_node 21 1 pool_exp pool_l_exp s
  | 22, s => pool_node 22 3 pool_sign pool_l_sign s
  | 23, s => pool_node 23 1 pool_ws pool_l_ws s
  | 24, s => pool_node 24 4 pool_sp1 pool_l_sp1 s
  | 25, s => pool_node 25 3 pool_symbol pool_l_symbol s
  | 26, s => pool_node 26 3 pool_symbol_1 pool_l_symbol_1 s
  | 27, s => pool_node 27 1 pool_symbol_2 pool_l_symbol_2 s
  | 28, s => pool_node 28 1 pool_symbol_1_1 pool_l_symbol_1_1 s
  | 29, s => pool_node 29 1 pool_character_1 pool_l_character_1 s
  | 30, s => pool_node 30 1 pool_digit_1 pool_l_digit_1 s
  | rid, s => (node_create rid, s)

/-- A non-terminal node as the generator switch cases leave it: id, the
`recursion_edge_size` and `non_term_size` accumulated by the `+= 1` lines
(starting from `node_create`'s 1), no value, parent left untouched (`NULL`),
and the assigned `subnodes` array.  -/
def case_node (rid : Nat) (res : Nat) (nts : Nat) (subs : List node_t) : node_t :=
  .mk rid res nts [] 0 none (node_list.ofList subs)

/-- A `node_create_with_val(TERM_NODE, lit, 1)` child. -/
def term1 (lit : String) : node_t := node_create_with_val 0 lit 1

/-- The switch cases 0..92 of `gen_character`: the single-character terminals, in
case order (case 93 generates an `esc` child instead).  -/
def character_cases : List String :=
  [" ", "!", "\"", "#", "$", "%", "&", "(", ")", "*", "+", ",", "-", ".", "/",
   "0", "1", "2", "3", "4", "5", "6", "7", "8", "9", ":", ";", "<", "=", ">",
   "?", "@", "A", "B", "C", "D", "E", "F", "G", "H", "I", "J", "K", "L", "M",
   "N", "O", "P", "Q", "R", "S", "T", "U", "V", "W", "X", "Y", "Z", "[", "]",
   "^", "_", "`", "a", "b", "c", "d", "e", "f", "g", "h", "i", "j", "k", "l",
   "m", "n", "o", "p", "q", "r", "s", "t", "u", "v", "w", "x", "y", "z", "\x7b",
   "|", "\x7d", "~"]

/-- The switch cases 0..6 of `gen_escc`, in case order. -/
def escc_cases : List String := ["\"", "\\", "b", "f", "n", "r", "t"]

/-- The switch cases 0..8 of `gen_onenine`, in case order. -/
def onenine_cases : List String := ["1", "2", "3", "4", "5", "6", "7", "8", "9"]

/-- The switch cases 0..3 of `gen_sp1`, in case order. -/
def sp1_cases : List String := ["\t", "\n", "\r", " "]

/-- The thirty generators `gen_start` .. `gen_digit_1`, dispatched on the rule
id (the numbering of `gen_funcs`).  A draw past the number of switch cases
(impossible, since `map_rand n < n`) falls through the C switch leaving the
fresh node unchanged, hence the `node_create rid` defaults.  -/
def gen : Nat → Nat → Int → Int → Rand → node_t × Rand
  | 0, rid, depth, md, s =>
    if depth > md then gen_pool rid s else (node_create rid, s)
  | fuel + 1, rid, depth, md, s =>
    if depth > md then gen_pool rid s
    else
      let rr := rand_next s
      let r := rr.1
      let s := rr.2
      match rid with
      | 1 => -- gen_start: 1 case: json
        let _ := map_rand 1 r
        let x0 := gen fuel 2 (depth + 1) md s
        (case_node 1 0 2 [x0.1], x0.2)
      | 2 => -- gen_json: 1 case: element
        let _ := map_rand 1 r
        let x0 := gen fuel 3 (depth + 1) md s
        (case_node 2 0 2 [x0.1], x0.2)
      | 3 => -- gen_element: 1 case: ws value ws
        let _ := map_rand 1 r
        let x0 := gen fuel 23 (depth + 1) md s
        let x1 := gen fuel 4 (depth + 1) md x0.2
        let x2 := gen fuel 23 (depth + 1) md x1.2
        (case_node 3 0 4 [x0.1, x1.1, x2.1], x2.2)
      | 4 => -- gen_value: 7 cases
        match map_rand 7 r with
        | 0 => (case_node 4 0 1 [node_create_with_val 0 "false" 5], s)
        | 1 => (case_node 4 0 1 [node_create_with_val 0 "null" 4], s)
        | 2 => (case_node 4 0 1 [node_create_with_val 0 "true" 4], s)
        | 3 =>
          let x0 := gen fuel 8 (depth + 1) md s
          (case_node 4 0 2 [x0.1], x0.2)
        | 4 =>
          let x0 := gen fuel 5 (depth + 1) md s
          (case_node 4 0 2 [x0.1], x0.2)
        | 5 =>
          let x0 := gen fuel 15 (depth + 1) md s
          (case_node 4 0 2 [x0.1], x0.2)
        | 6 =>
          let x0 := gen fuel 10 (depth + 1) md s
          (case_node 4 0 2 [x0.1], x0.2)
        | _ => (node_create 4, s)
      | 5 => -- gen_object: 2 cases
        match map_rand 2 r with
        | 0 =>
          let x1 := gen fuel 23 (depth + 1) md s
          (case_node 5 0 2 [term1 "\x7b", x1.1, term1 "\x7d"], x1.2)
        | 1 =>
          let x1 := gen fuel 6 (depth + 1) md s
          (case_node 5 0 2 [term1 "\x7b", x1.1, term1 "\x7d"], x1.2)
        | _ => (node_create 5, s)
      | 6 => -- gen_members: 1 case: member symbol_2
        let _ := map_rand 1 r
        let x0 := gen fuel 7 (depth + 1) md s
        let x1 := gen fuel 27 (depth + 1) md x0.2
        (case_node 6 0 3 [x0.1, x1.1], x1.2)
      | 7 => -- gen_member: 1 case: ws string ws ":" element
        let _ := map_rand 1 r
        let x0 := gen fuel 23 (depth + 1) md s
        let x1 := gen fuel 10 (depth + 1) md x0.2
        let x2 := gen fuel 23 (depth + 1) md x1.2
        let x4 := gen fuel 3 (depth + 1) md x2.2
        (case_node 7 0 5 [x0.1, x1.1, x2.1, term1 ":", x4.1], x4.2)
      | 8 => -- gen_array: 2 cases
        match map_rand 2 r with
        | 0 =>
          let x1 := gen fuel 23 (depth + 1) md s
          (case_node 8 0 2 [term1 "[", x1.1, term1 "]"], x1.2)
        | 1 =>
          let x1 := gen fuel 9 (depth + 1) md s
          (case_node 8 0 2 [term1 "[", x1.1, term1 "]"], x1.2)
        | _ => (node_create 8, s)
      | 9 => -- gen_elements: 1 case: element symbol_1_1
        let _ := map_rand 1 r
        let x0 := gen fuel 3 (depth + 1) md s
        let x1 := gen fuel 28 (depth + 1) md x0.2
        (case_node 9 0 3 [x0.1, x1.1], x1.2)
      | 10 => -- gen_string: 1 case: quote characters quote
        let _ := map_rand 1 r
        let x1 := gen fuel 11 (depth + 1) md s
        (case_node 10 0 2 [term1 "\"", x1.1, term1 "\""], x1.2)
      | 11 => -- gen_characters: 1 case: character_1
        let _ := map_rand 1 r
        let x0 := gen fuel 29 (depth + 1) md s
        (case_node 11 0 2 [x0.1], x0.2)
      | 12 => -- gen_character: 94 cases; 0..92 single-char terminals, 93 esc
        let v := map_rand 94 r
        if v < 93 then (case_node 12 0 1 [term1 (character_cases.getD v "")], s)
        else
          let x0 := gen fuel 13 (depth + 1) md s
          (case_node 12 0 2 [x0.1], x0.2)
      | 13 => -- gen_esc: 1 case: backslash escc
        let _ := map_rand 1 r
        let x1 := gen fuel 14 (depth + 1) md s
        (case_node 13 0 2 [term1 "\\", x1.1], x1.2)
      | 14 => -- gen_escc: 7 single-char terminal cases
        let v := map_rand 7 r
        (case_node 14 0 1 [term1 (escc_cases.getD v "")], s)
      | 15 => -- gen_number: 1 case: int frac exp
        let _ := map_rand 1 r
        let x0 := gen fuel 16 (depth + 1) md s
        let x1 := gen fuel 20 (depth + 1) md x0.2
        let x2 := gen fuel 21 (depth + 1) md x1.2
        (case_node 15 0 4 [x0.1, x1.1, x2.1], x2.2)
      | 16 => -- gen_int: 4 cases
        match map_rand 4 r with
        | 0 =>
          let x0 := gen fuel 18 (depth + 1) md s
          (case_node 16 0 2 [x0.1], x0.2)
        | 1 =>
          let x1 := gen fuel 17 (depth + 1) md s
          (case_node 16 0 2 [term1 "-", x1.1], x1.2)
        | 2 =>
          let x1 := gen fuel 19 (depth + 1) md s
          let x2 := gen fuel 17 (depth + 1) md x1.2
          (case_node 16 0 3 [term1 "-", x1.1, x2.1], x2.2)
        | 3 =>
          let x0 := gen fuel 19 (depth + 1) md s
          let x1 := gen fuel 17 (depth + 1) md x0.2
          (case_node 16 0 3 [x0.1, x1.1], x1.2)
        | _ => (node_create 16, s)
      | 17 => -- gen_digits: 1 case: digit_1
        let _ := map_rand 1 r
        let x0 := gen fuel 30 (depth + 1) md s
        (case_node 17 0 2 [x0.1], x0.2)
      | 18 => -- gen_digit: 2 cases
        match map_rand 2 r with
        | 0 => (case_node 18 0 1 [term1 "0"], s)
        | 1 =>
          let x0 := gen fuel 19 (depth + 1) md s
          (case_node 18 0 2 [x0.1], x0.2)
        | _ => (node_create 18, s)
      | 19 => -- gen_onenine: 9 single-char terminal cases
        let v := map_rand 9 r
        (case_node 19 0 1 [term1 (onenine_cases.getD v "")], s)
      | 20 => -- gen_frac: 2 cases
        match map_rand 2 r with
        | 0 => (case_node 20 0 1 [], s)
        | 1 =>
          let x1 := gen fuel 17 (depth + 1) md s
          (case_node 20 0 2 [term1 ".", x1.1], x1.2)
        | _ => (node_create 20, s)
      | 21 => -- gen_exp: 3 cases
        match map_rand 3 r with
        | 0 => (case_node 21 0 1 [], s)
        | 1 =>
          let x1 := gen fuel 22 (depth + 1) md s
          let x2 := gen fuel 17 (depth + 1) md x1.2
          (case_node 21 0 3 [term1 "E", x1.1, x2.1], x2.2)
        | 2 =>
          let x1 := gen fuel 22 (depth + 1) md s
          let x2 := gen fuel 17 (depth + 1) md x1.2
          (case_node 21 0 3 [term1 "e", x1.1, x2.1], x2.2)
        | _ => (node_create 21, s)
      | 22 => -- gen_sign: 3 cases
        match map_rand 3 r with
        | 0 => (case_node 22 0 1 [], s)
        | 1 => (case_node 22 0 1 [term1 "+"], s)
        | 2 => (case_node 22 0 1 [term1 "-"], s)
        | _ => (node_create 22, s)
      | 23 => -- gen_ws: 2 cases; case 1 recurses into ws (recursion edge)
        match map_rand 2 r with
        | 0 => (case_node 23 0 1 [], s)
        | 1 =>
          let x0 := gen fuel 24 (depth + 1) md s
          let x1 := gen fuel 23 (depth + 1) md x0.2
          (case_node 23 1 3 [x0.1, x1.1], x1.2)
        | _ => (node_create 23, s)
      | 24 => -- gen_sp1: 4 single-char terminal cases
        let v := map_rand 4 r
        (case_node 24 0 1 [term1 (sp1_cases.getD v "")], s)
      | 25 => -- gen_symbol: 1 case: comma members
        let _ := map_rand 1 r
        let x1 := gen fuel 6 (depth + 1) md s
        (case_node 25 0 2 [term1 ",", x1.1], x1.2)
      | 26 => -- gen_symbol_1: 1 case: comma elements
        let _ := map_rand 1 r
        let x1 := gen fuel 9 (depth + 1) md s
        (case_node 26 0 2 [term1 ",", x1.1], x1.2)
      | 27 => -- gen_symbol_2: 2 cases; case 1 recurses into symbol_2
        match map_rand 2 r with
        | 0 => (case_node 27 0 1 [], s)
        | 1 =>
          let x0 := gen fuel 25 (depth + 1) md s
          let x1 := gen fuel 27 (depth + 1) md x0.2
          (case_node 27 1 3 [x0.1, x1.1], x1.2)
        | _ => (node_create 27, s)
      | 28 => -- gen_symbol_1_1: 2 cases; case 1 recurses into symbol_1_1
        match map_rand 2 r with
        | 0 => (case_node 28 0 1 [], s)
        | 1 =>
          let x0 := gen fuel 26 (depth + 1) md s
          let x1 := gen fuel 28 (depth + 1) md x0.2
          (case_node 28 1 3 [x0.1, x1.1], x1.2)
        | _ => (node_create 28, s)
      | 29 => -- gen_character_1: 2 cases; case 1 recurses into character_1
        match map_rand 2 r with
        | 0 => (case_node 29 0 1 [], s)
        | 1 =>
          let x0 := gen fuel 12 (depth + 1) md s
          let x1 := gen fuel 29 (depth + 1) md x0.2
          (case_node 29 1 3 [x0.1, x1.1], x1.2)
        | _ => (node_create 29, s)
      | 30 => -- gen_digit_1: 2 cases; case 1 recurses into digit_1
        match map_rand 2 r with
        | 0 =>
          let x0 := gen fuel 18 (depth + 1) md s
          (case_node 30 0 2 [x0.1], x0.2)
        | 1 =>
          let x0 := gen fuel 18 (depth + 1) md s
          let x1 := gen fuel 30 (depth + 1) md x0.2
          (case_node 30 1 3 [x0.1, x1.1], x1.2)
        | _ => (node_create 30, s)
      | rid => (node_create rid, s)

/-! ## Node selection (`_pick_node` in `tree_mutation.c`)

```
node_t *_pick_node(node_t *root) {
  // !!!: This function may return NULL
  if (random() % 2) return root;
  node_t *subnode = root->subnodes; ... // try each subnode in order
  return NULL;
}
```

The embedding returns the PATH (list of child indices) of the picked node
instead of the pointer, which is what the pointer identifies in a tree-shaped
heap; `none` is the C `NULL` result.  The random draws are consumed in the
same order as the C recursion.  -/

mutual

def pick_node : node_t → Rand → Option (List Nat) × Rand
  | .mk _ _ _ _ _ _ subs, s =>
    let rr := rand_next s
    if rr.1 % 2 ≠ 0 then (some [], rr.2)
    else pick_list subs 0 rr.2

def pick_list : node_list → Nat → Rand → Option (List Nat) × Rand
  | .nil, _, s => (none, s)
  | .cons c rest, i, s =>
    let q := pick_node c s
    match q.1 with
    | some p => (some (i :: p), q.2)
    | none => pick_list rest (i + 1) q.2

end

/-! ## Paths into a tree -/

mutual

def get_path : node_t → List Nat → Option node_t
  | n, [] => some n
  | .mk _ _ _ _ _ _ subs, i :: p => get_path_list subs i p

def get_path_list : node_list → Nat → List Nat → Option node_t
  | .nil, _, _ => none
  | .cons c _, 0, p => get_path c p
  | .cons _ rest, i + 1, p => get_path_list rest i p

end

mutual

/-- Replace the subtree at `p` (leaves the tree unchanged on an invalid path;
it is only used on paths returned by `pick_node`, which are valid). -/
def set_path : node_t → List Nat → node_t → node_t
  | _, [], r => r
  | .mk a b c d e f subs, i :: p, r => .mk a b c d e f (set_path_list subs i p r)

def set_path_list : node_list → Nat → List Nat → node_t → node_list
  | .nil, _, _, _ => .nil
  | .cons c rest, 0, p, r => .cons (set_path c p r) rest
  | .cons c rest, i + 1, p, r => .cons c (set_path_list rest i p r)

end

/-! ## Trees and the mutation engine -/

/-- The struct `tree` of `tree.h`: an owned root plus the generation depth and the
rendered data buffer cache. -/
structure tree_t where
  root : node_t
  depth : Nat
  data : List Nat
  data_len : Nat
  deriving DecidableEq

/-- The function `tree_clone` (declared in `tree.h`, body in the absent `tree.c`).
Modelled from the spec (§4.3): a deep copy with identical structure and
values, `non_terminal_count` copied verbatim, and the parent back-references
of the copy rewired to the copied parents; the clone shares no storage with
the original.  In this purely functional model the clone is therefore the
same tree value (the heap model below treats storage sharing explicitly).  -/
def tree_clone (t : tree_t) : tree_t := t

/-- The `gen_funcs[rid]` dispatch: the table has 31 entries; entry 0 is `NULL`.
Calling a `NULL` or out-of-bounds entry is a crash, modelled as `none`.  -/
def gen_dispatch (fuel : Nat) (rid : Nat) (depth md : Int) (s : Rand) :
    Option (node_t × Rand) :=
  if rid = 0 ∨ 31 ≤ rid then none else some (gen fuel rid depth md s)

/-- Fuel sufficient for generation bounded by `md`: recursion stops once the
depth (which starts at 0 and grows by one per level) exceeds `md`.  -/
def fuel_for (md : Int) : Nat := (md + 1).toNat

/-- The path of the node `random_mutation` picks: `_pick_node`'s result, with
the `if (node == NULL) node = mutated_tree->root` fallback to the root.  -/
def picked_path (t : tree_t) (s : Rand) : List Nat :=
  ((pick_node (tree_clone t).root s).1).getD []

/-- The stream left after `_pick_node` has consumed its draws. -/
def after_pick (t : tree_t) (s : Rand) : Rand :=
  (pick_node (tree_clone t).root s).2

/-- The draw `max_depth = random() % 15 + 1`: the generation-depth bound freshly drawn
by `random_mutation` (the draw right after `_pick_node`'s).  -/
def drawn_max_depth (t : tree_t) (s : Rand) : Int :=
  ((map_rand 15 (rand_next (after_pick t s)).1 : Nat) : Int) + 1

/-- The stream handed to the dispatched generator (after the pick and the
`max_depth` draw). -/
def post_draw (t : tree_t) (s : Rand) : Rand :=
  (rand_next (after_pick t s)).2

/-- The function `random_mutation` of `tree_mutation.c`: clone, pick a node (falling back
to the root on a `NULL` pick), draw `max_depth` in `[1, 15]`, regenerate the
picked node's rule via `gen_funcs[node->id]`, splice the replacement in at the
picked position (both the `!parent` root branch and the
`node_replace_subnode` branch substitute at exactly the picked position), and
free the detached subtree (a no-op on values).  `none` models the crash on a
`NULL`/out-of-bounds `gen_funcs` entry.  -/
def random_mutation (t : tree_t) (s : Rand) : Option (tree_t × Rand) :=
  let mt := tree_clone t
  let pk := pick_node mt.root s
  let path := pk.1.getD []
  match get_path mt.root path with
  | none => none
  | some node =>
    let rr := rand_next pk.2
    let md : Int := ((map_rand 15 rr.1 : Nat) : Int) + 1
    match gen_dispatch (fuel_for md) node.id 0 md rr.2 with
    | none => none
    | some g => some ({ mt with root := set_path mt.root path g.1 }, g.2)

/-! ## The size invariant (claim C2, spec §3) -/

mutual

/-- Checks, recursively, that every node's cached `non_term_size` equals
1 (if the node is a non-terminal, i.e. `id ≠ 0`) plus the sum of its
children's cached counts, and 0 for terminal nodes.  -/
def size_inv : node_t → Bool
  | .mk i _ nts _ _ _ subs =>
    (nts == (if i = 0 then 0 else 1 + subs.sum_non_term)) && size_inv_list subs

def size_inv_list : node_list → Bool
  | .nil => true
  | .cons c rest => size_inv c && size_inv_list rest

end

/-! ## Shared concrete inputs and helper lemmas -/

/-- A single-node tree whose root is a fresh `START` non-terminal. -/
def sample_tree : tree_t := ⟨node_create START, 0, [], 0⟩

/-- A stream whose first draw is odd (heads on the first coin flip) and whose
later draws are 0. -/
def sample_rand : Rand := fun n => if n = 0 then 1 else 0

/-- The result of `random_mutation` on the sample input (it succeeds, so the
default is never taken). -/
def sample_res : tree_t × Rand :=
  (random_mutation sample_tree sample_rand).getD (sample_tree, sample_rand)

/-- The tree `gen_start` produces with `max_depth = 1` when every draw is 0:
`START(JSON(ELEMENT:"null"))`. -/
def gen_zero_tree : node_t := (gen (fuel_for 1) START 0 1 (fun _ => 0)).1

/-- A `VALUE` node whose only child is the terminal `"false"` — exactly the
shape `gen_value`'s switch case 0 builds. -/
def value_false_node : node_t :=
  case_node VALUE 0 1 [node_create_with_val TERM_NODE "false" 5]

def value_false_tree : tree_t := ⟨value_false_node, 0, [], 0⟩

/-- Whenever the first draw is odd, `_pick_node` immediately returns the node
it was handed (the `if (random() % 2) return root;` line), whatever the
tree.  -/
theorem pick_node_heads (n : node_t) (s : Rand) (h : s 0 % 2 = 1) :
    pick_node n s = (some [], (rand_next s).2) := by
  cases n with
  | mk a b c d e f subs => simp [pick_node, rand_next, h]

/-! ## Claim C1 -/

/-- Claim C1 (status: code_bug).  The claim states that node selection picks
each non-terminal uniformly with probability `1/W` and never returns an
absent result.  The source's `_pick_node` does neither: on a root-only tree
it returns `NULL` whenever its first draw is even (first conjunct), and on
the three-non-terminal tree `START(JSON(ELEMENT))` (weight `W = 3` by the
engine's own counting) it returns the root whenever the first draw is odd,
i.e. with probability at least 1/2 instead of 1/3 (second conjunct).  The
code itself flags this: `// !!!: This function may return NULL`.  -/
theorem c1_pick_node_defect :
    (pick_node (node_create START) (fun _ => 0)).1 = none ∧
    (pick_node gen_zero_tree (fun _ => 1)).1 = some [] := by
  constructor
  · decide
  · decide

/-! ## Claim C2 -/

/-- Claim C2 (status: code_bug).  The generated code increments the parent's
`non_term_size` by exactly 1 per non-terminal child (`node->non_term_size
+= 1;`) instead of adding the child's own subtree count, so the cached count
invariant that `tree.h` documents ("the number of non-terminal nodes in the
subtree") fails on the very first nested tree: with `max_depth = 1` and all
draws 0, `gen_start` yields `START(JSON(ELEMENT))` where the root's cached
count is 2 and its only child's cached count is also 2, while the invariant
demands `1 + 2 = 3` for the root.  -/
theorem c2_size_invariant_violated :
    size_inv gen_zero_tree = false ∧
    gen_zero_tree.non_term_size = 2 ∧
    (get_path gen_zero_tree [0]).map node_t.non_term_size = some 2 := by
  refine ⟨by decide, by decide, by decide⟩

/-! ## Claim C5 -/

/-- Claim C5 (status: code_bug).  `_pick_node` recurses through every child,
terminal children included, so it can return a terminal node (id 0):
on the tree `VALUE("false")` with the draw sequence 0, 1, … it descends past
the root (first draw even) and then picks the terminal child (second draw
odd).  `random_mutation` then reads `gen_funcs[0]`, which is the `NULL` entry
of the dispatch table — a crash, modelled as `none`.  -/
theorem c5_null_generator_dispatched :
    (get_path value_false_tree.root (picked_path value_false_tree (fun n => n))).map node_t.id
      = some TERM_NODE ∧
    random_mutation value_false_tree (fun n => n) = none := by
  exact ⟨by decide, rfl⟩

/-! ## Claim C6 -/

/-- Claim C6 (status: code_bug).  The generators assign children directly
(`node->subnodes[0] = subnode;`) and never write `subnode->parent`, so in
every tree they build each child's parent pointer keeps the `NULL` it was
created with: here the `JSON` child of the generated `START` root has an
absent parent, where the claim requires a reference to the owning node.  -/
theorem c6_parent_not_wired :
    (get_path gen_zero_tree [0]).map node_t.parent = some none ∧
    (get_path gen_zero_tree [0, 0]).map node_t.parent = some none := by
  exact ⟨by decide, by decide⟩

/-! ## Rule-id preservation of the generators -/

/-- Every pool branch returns a node whose id is the dispatched rule id. -/
theorem gen_pool_id (rid : Nat) (s : Rand) : ((gen_pool rid s).1).id = rid := by
  unfold gen_pool
  split <;> simp [pool_node, node_set_val, node_create, node_t.id]

/-- Every generator returns a node carrying the rule id it was dispatched
for (each `gen_X` starts with `node_create(X)` and the id is never changed). -/
theorem gen_id (fuel rid : Nat) (depth md : Int) (s : Rand) :
    ((gen fuel rid depth md s).1).id = rid := by
  cases fuel with
  | zero =>
    unfold gen
    split
    · exact gen_pool_id rid s
    · simp [node_create, node_t.id]
  | succ fuel =>
    unfold gen
    split
    · exact gen_pool_id rid s
    · split <;> dsimp only <;>
        first
        | rfl
        | (split <;> rfl)

/-! ## Paths: lookup after replacement, and validity of picked paths -/

theorem set_path_get_aux (r : node_t) (p : List Nat)
    (ih : ∀ n m : node_t, get_path n p = some m → get_path (set_path n p r) p = some r) :
    ∀ (subs : node_list) (i : Nat) (m : node_t),
      get_path_list subs i p = some m →
      get_path_list (set_path_list subs i p r) i p = some r
  | .nil, i, m, h => by simp [get_path_list] at h
  | .cons c rest, 0, m, h => by
    simp only [get_path_list, set_path_list] at h ⊢
    exact ih _ _ h
  | .cons c rest, i + 1, m, h => by
    simp only [get_path_list, set_path_list] at h ⊢
    exact set_path_get_aux r p ih rest i m h

/-- Replacing the subtree at a valid path puts the replacement exactly
there. -/
theorem set_path_get (r : node_t) :
    ∀ (p : List Nat) (n m : node_t),
      get_path n p = some m → get_path (set_path n p r) p = some r := by
  intro p
  induction p with
  | nil => intro n m _; simp [get_path, set_path]
  | cons i p ih =>
    intro n m h
    cases n with
    | mk a b c d e f subs =>
      simp only [get_path, set_path] at h ⊢
      exact set_path_get_aux r p ih subs i m h

mutual

/-- A `some` result of `_pick_node` is a valid path into the tree. -/
theorem pick_node_valid : ∀ (n : node_t) (s : Rand) (p : List Nat),
    (pick_node n s).1 = some p → ∃ m, get_path n p = some m
  | .mk a b c d e f subs, s, p, h => by
    simp only [pick_node] at h
    by_cases hc : (rand_next s).1 % 2 ≠ 0
    · rw [if_pos hc] at h
      obtain rfl : [] = p := by simpa using h
      exact ⟨_, rfl⟩
    · rw [if_neg hc] at h
      obtain ⟨j, p0, rfl, m, hm⟩ := pick_list_valid subs 0 (rand_next s).2 p h
      exact ⟨m, by simpa [get_path] using hm⟩

theorem pick_list_valid : ∀ (subs : node_list) (i : Nat) (s : Rand) (p : List Nat),
    (pick_list subs i s).1 = some p →
    ∃ j p0, p = (i + j) :: p0 ∧ ∃ m, get_path_list subs j p0 = some m
  | .nil, i, s, p, h => by simp [pick_list] at h
  | .cons c rest, i, s, p, h => by
    simp only [pick_list] at h
    cases hq : (pick_node c s).1 with
    | some p0 =>
      rw [hq] at h
      obtain rfl : (i :: p0 : List Nat) = p := by simpa using h
      obtain ⟨m, hm⟩ := pick_node_valid c s p0 hq
      exact ⟨0, p0, by simp, m, by simpa [get_path_list] using hm⟩
    | none =>
      rw [hq] at h
      obtain ⟨j, p0, rfl, m, hm⟩ := pick_list_valid rest (i + 1) (pick_node c s).2 p h
      exact ⟨j + 1, p0, by rw [show i + (j + 1) = i + 1 + j by omega], m,
        by simpa [get_path_list] using hm⟩

end

/-! ## Claim C4 -/

/-- Claim C4 (status: confirmed).  Whenever `random_mutation` completes, the
position of the picked node holds, in the result, a node whose rule id equals
the picked node's rule id: the dispatched generator `gen_funcs[node->id]`
always returns a node created with that same id.  -/
theorem c4_rule_id_preserved (t : tree_t) (s : Rand) (t2 : tree_t) (s2 : Rand)
    (h : random_mutation t s = some (t2, s2)) :
    ∃ old new, get_path t.root (picked_path t s) = some old ∧
      get_path t2.root (picked_path t s) = some new ∧
      new.id = old.id := by
  unfold random_mutation at h
  dsimp only at h
  split at h
  · exact absurd h (by simp)
  · rename_i node hget
    rw [show gen_dispatch = fun fuel rid depth md s =>
          if rid = 0 ∨ 31 ≤ rid then none else some (gen fuel rid depth md s)
        from rfl] at h
    dsimp only at h
    split at h
    · exact absurd h (by simp)
    · rename_i g hdisp
      split at hdisp
      · exact absurd hdisp (by simp)
      · rw [Option.some_inj] at hdisp
        injection h with h0
        injection h0 with h1 h2
        subst h1
        refine ⟨node, g.1, hget, ?_, ?_⟩
        · exact set_path_get g.1 _ _ node hget
        · rw [← hdisp]
          exact gen_id _ _ _ _ _

/-- Witness input for C4: `random_mutation` on the one-node `START` tree with
an odd first draw succeeds. -/
theorem c4_witness :
    ∃ old new, get_path sample_tree.root (picked_path sample_tree sample_rand) = some old ∧
      get_path sample_res.1.root (picked_path sample_tree sample_rand) = some new ∧
      new.id = old.id :=
  c4_rule_id_preserved sample_tree sample_rand sample_res.1 sample_res.2 rfl

/-! ## Claim C8 -/

/-- Claim C8 (status: confirmed).  On every call, `random_mutation` computes the
fresh bound as `random() % 15 + 1`: it always lies in `[1, 15]`; every value
of `[1, 15]` is attained by an appropriate draw; each value arises from
exactly one of the fifteen equiprobable residues of the draw modulo 15 (the
sense in which the bound is uniform on `[1, 15]` whenever `random() % 15`
is uniform); and the dispatched generator call consumes exactly this bound as
its `max_depth`.  -/
theorem c8_depth_bound (t : tree_t) (s : Rand) :
    (1 ≤ drawn_max_depth t s ∧ drawn_max_depth t s ≤ 15) ∧
    (∀ k : Int, 1 ≤ k → k ≤ 15 → ∃ c : Nat, ∀ u : tree_t,
      drawn_max_depth u (fun _ => c) = k) ∧
    (∀ k : Nat, k < 15 →
      ((Finset.range 15).filter (fun r => r % 15 + 1 = k + 1)).card = 1) ∧
    (∀ (t2 : tree_t) (s2 : Rand), random_mutation t s = some (t2, s2) →
      ∃ nd, get_path t.root (picked_path t s) = some nd ∧
        t2.root = set_path t.root (picked_path t s)
          ((gen (fuel_for (drawn_max_depth t s)) nd.id 0 (drawn_max_depth t s)
            (post_draw t s)).1)) := by
  refine ⟨?_, ?_, ?_, ?_⟩
  · have h15 : (rand_next (after_pick t s)).1 % 15 < 15 := Nat.mod_lt _ (by norm_num)
    unfold drawn_max_depth map_rand
    omega
  · intro k hk1 hk2
    refine ⟨if (k - 1).toNat % 2 = 1 then (k - 1).toNat else (k - 1).toNat + 15,
      fun u => ?_⟩
    have hodd :
        (if (k - 1).toNat % 2 = 1 then (k - 1).toNat else (k - 1).toNat + 15) % 2 = 1 := by
      by_cases h2 : (k - 1).toNat % 2 = 1
      · rw [if_pos h2]
        exact h2
      · rw [if_neg h2]
        omega
    have hp := pick_node_heads u.root
      (fun _ => if (k - 1).toNat % 2 = 1 then (k - 1).toNat else (k - 1).toNat + 15) hodd
    unfold drawn_max_depth after_pick tree_clone
    rw [hp]
    unfold map_rand rand_next
    dsimp only
    by_cases h2 : (k - 1).toNat % 2 = 1 <;> simp only [h2, if_true, if_false] <;> omega
  · decide
  · intro t2 s2 h
    unfold random_mutation at h
    dsimp only at h
    split at h
    · exact absurd h (by simp)
    · rename_i node hget
      rw [show gen_dispatch = fun fuel rid depth md s =>
            if rid = 0 ∨ 31 ≤ rid then none else some (gen fuel rid depth md s)
          from rfl] at h
      dsimp only at h
      split at h
      · exact absurd h (by simp)
      · rename_i g hdisp
        split at hdisp
        · exact absurd hdisp (by simp)
        · rw [Option.some_inj] at hdisp
          injection h with h0
          injection h0 with h1 h2
          subst h1
          refine ⟨node, hget, ?_⟩
          rw [← hdisp]
          try rfl

/-- Witness for C8: the bound value 7 is attainable, and on the sample input
the successful mutation's replacement was generated with the drawn bound. -/
theorem c8_witness :
    (∃ c : Nat, ∀ u : tree_t, drawn_max_depth u (fun _ => c) = 7) ∧
    (∃ nd, get_path sample_tree.root (picked_path sample_tree sample_rand) = some nd ∧
      sample_res.1.root = set_path sample_tree.root (picked_path sample_tree sample_rand)
        ((gen (fuel_for (drawn_max_depth sample_tree sample_rand)) nd.id 0
          (drawn_max_depth sample_tree sample_rand)
          (post_draw sample_tree sample_rand)).1)) :=
  ⟨(c8_depth_bound sample_tree sample_rand).2.1 7 (by norm_num) (by norm_num),
   (c8_depth_bound sample_tree sample_rand).2.2.2 sample_res.1 sample_res.2 rfl⟩

/-! ## Claim C10 -/

/-- What the shared pool branch produces: a childless node whose value is a
pool entry copied in full (given that the recorded length of every entry
equals the entry's true length) with `val_len` the recorded length.  -/
theorem pool_node_spec (rid n : Nat) (ps : List String) (ls : List Nat) (s : Rand)
    (hn : 0 < n) (hlen : n = ps.length)
    (hok : ∀ v, v < n → ls.getD v 0 = (str_bytes (ps.getD v "")).length) :
    (pool_node rid n ps ls s).1.subnodes = node_list.nil ∧
    ∃ i, i < ps.length ∧
      (pool_node rid n ps ls s).1.val = str_bytes (ps.getD i "") ∧
      (pool_node rid n ps ls s).1.val_len = ls.getD i 0 := by
  have hv : map_rand n (rand_next s).1 < n := Nat.mod_lt _ hn
  refine ⟨?_, map_rand n (rand_next s).1, hlen ▸ hv, ?_, ?_⟩
  · simp [pool_node, node_set_val, node_create, node_t.subnodes]
  · simp only [pool_node, node_set_val, node_create, node_t.val]
    rw [hok _ hv, List.take_length]
  · simp [pool_node, node_set_val, node_create, node_t.val_len]

/-- Claim C10 (status: confirmed).  Each rule's recorded pool lengths equal the
true byte lengths of the pool strings, and past the depth bound every
generator returns a childless node whose value is a pool entry of its rule,
with `val_len` the entry's recorded (exact) length.  -/
theorem c10_pool_terminals :
    (∀ rid : Nat, 1 ≤ rid → rid ≤ 30 → ∀ i, i < (pool_strs rid).length →
      (pool_lens rid).getD i 0 = ((pool_strs rid).getD i "").utf8ByteSize) ∧
    (∀ (fuel rid : Nat) (depth md : Int) (s : Rand), 1 ≤ rid → rid ≤ 30 → md < depth →
      (gen fuel rid depth md s).1.subnodes = node_list.nil ∧
      ∃ i, i < (pool_strs rid).length ∧
        (gen fuel rid depth md s).1.val = str_bytes ((pool_strs rid).getD i "") ∧
        (gen fuel rid depth md s).1.val_len = (pool_lens rid).getD i 0) := by
  constructor
  · intro rid h1 h2
    interval_cases rid <;> decide
  · intro fuel rid depth md s h1 h2 hd
    have hgt : gen fuel rid depth md s = gen_pool rid s := by
      cases fuel <;> (unfold gen; rw [if_pos hd])
    rw [hgt]
    interval_cases rid <;>
      exact pool_node_spec _ _ _ _ _ (by norm_num) (by decide) (by decide)

/-- Witness for C10: rule `ELEMENT` at depth 2 with bound 1 and draw 0. -/
theorem c10_witness :
    (pool_lens ELEMENT).getD 0 0 = ((pool_strs ELEMENT).getD 0 "").utf8ByteSize ∧
    ((gen 0 ELEMENT 2 1 (fun _ => 0)).1.subnodes = node_list.nil ∧
      ∃ i, i < (pool_strs ELEMENT).length ∧
        (gen 0 ELEMENT 2 1 (fun _ => 0)).1.val = str_bytes ((pool_strs ELEMENT).getD i "") ∧
        (gen 0 ELEMENT 2 1 (fun _ => 0)).1.val_len = (pool_lens ELEMENT).getD i 0) :=
  ⟨c10_pool_terminals.1 ELEMENT (by decide) (by decide) 0 (by decide),
   c10_pool_terminals.2 0 ELEMENT 2 1 (fun _ => 0) (by decide) (by decide) (by decide)⟩

/-! ## Structural equality and the structural serializer (claim C7)

`node_equal`, `tree_to_buf` and `tree_from_buf` are declared in `tree.h` but
their bodies live in the absent `tree.c`; they are modelled from the spec.  -/

mutual

/-- The function `node_equal`.  Modelled from the spec (§4.3): equal rule ids, equal
literal values (compared over the stored `val_len` bytes, as a `memcmp`
over `val_buf` does), equal child counts and recursively equal children, in
order; `parent`, the cached counts and the rendered cache are ignored.  -/
def node_equal : node_t → node_t → Bool
  | .mk i1 _ _ v1 l1 _ s1, .mk i2 _ _ v2 l2 _ s2 =>
    i1 == i2 && l1 == l2 && v1.take l1 == v2.take l2 && node_list_equal s1 s2

def node_list_equal : node_list → node_list → Bool
  | .nil, .nil => true
  | .cons a as, .cons b bs => node_equal a b && node_list_equal as bs
  | _, _ => false

end

mutual

/-- The structural encoding.  Modelled from the spec (§4.2): for each node in
pre-order, the rule id, a terminal/non-terminal flag, then the value length
and the value bytes for a terminal (a childless node), or the child count
followed by the children's encodings for a non-terminal.  -/
def tree_encode : node_t → List Nat
  | .mk i _ _ v vl _ .nil => i :: 1 :: vl :: v.take vl
  | .mk i _ _ _ _ _ subs => i :: 0 :: subs.length :: tree_encode_list subs

def tree_encode_list : node_list → List Nat
  | .nil => []
  | .cons c rest => tree_encode c ++ tree_encode_list rest

end

mutual

/-- The structural decoder (`tree_from_buf`'s node part).  Modelled from the
spec (§4.2, §7): streaming pre-order decode; a malformed buffer (truncated,
bad flag) yields an error and no partial tree; the decoded node's cached
count is recomputed from the invariant.  The fuel argument makes the
recursion structural; any fuel at least the node count of the encoded tree
suffices.  -/
def tree_decode : Nat → List Nat → Option (node_t × List Nat)
  | 0, _ => none
  | _ + 1, i :: 1 :: vl :: rest =>
    if vl ≤ rest.length then
      some (.mk i 0 (if i = 0 then 0 else 1) (rest.take vl) vl none .nil, rest.drop vl)
    else none
  | fuel + 1, i :: 0 :: cnt :: rest =>
    match tree_decode_list fuel cnt rest with
    | none => none
    | some (subs, rest2) =>
      some (.mk i 0 (if i = 0 then 0 else 1 + subs.sum_non_term) [] 0 none subs, rest2)
  | _ + 1, _ => none

def tree_decode_list : Nat → Nat → List Nat → Option (node_list × List Nat)
  | 0, _, _ => none
  | _ + 1, 0, buf => some (.nil, buf)
  | fuel + 1, cnt + 1, buf =>
    match tree_decode fuel buf with
    | none => none
    | some (c, rest) =>
      match tree_decode_list fuel cnt rest with
      | none => none
      | some (cs, rest2) => some (.cons c cs, rest2)

end

mutual

/-- Fuel sufficient to decode the encoding of this node. -/
def tree_fuel : node_t → Nat
  | .mk _ _ _ _ _ _ subs => tree_fuel_list subs + 1

def tree_fuel_list : node_list → Nat
  | .nil => 1
  | .cons c rest => tree_fuel c + tree_fuel_list rest + 1

end

mutual

/-- Well-formed buffers: a terminal's recorded length does not exceed its
stored bytes (no `memcpy` over-read), and a non-terminal carries no value
(§3: `value` is present only on terminal nodes).  Every tree the code builds
satisfies this.  -/
def wf_node : node_t → Bool
  | .mk _ _ _ v vl _ .nil => decide (vl ≤ v.length)
  | .mk _ _ _ v vl _ subs => (v == []) && (vl == 0) && wf_list subs

def wf_list : node_list → Bool
  | .nil => true
  | .cons c rest => wf_node c && wf_list rest

end

mutual

theorem tree_decode_encode : ∀ (n : node_t) (fuel : Nat) (rest : List Nat),
    wf_node n = true → tree_fuel n ≤ fuel →
    ∃ m, tree_decode fuel (tree_encode n ++ rest) = some (m, rest) ∧
      node_equal n m = true
  | .mk i r nts v vl p .nil, fuel, rest, hwf, hfuel => by
    have hvl : vl ≤ v.length := by simpa [wf_node] using hwf
    cases fuel with
    | zero => simp [tree_fuel] at hfuel
    | succ f =>
      have hlen : (v.take vl).length = vl := by
        simp [List.length_take, Nat.min_eq_left hvl]
      refine ⟨.mk i 0 (if i = 0 then 0 else 1) (v.take vl) vl none .nil, ?_, ?_⟩
      · show tree_decode (f + 1) ((i :: 1 :: vl :: v.take vl) ++ rest) = _
        simp only [List.cons_append, tree_decode]
        rw [if_pos (by rw [List.length_append, hlen]; omega)]
        rw [List.take_left' hlen, List.drop_left' hlen]
      · simp [node_equal, node_list_equal, List.take_take]
  | .mk i r nts v vl p (.cons c cs), fuel, rest, hwf, hfuel => by
    have hwf2 : ((v == []) && (vl == 0) && wf_list (.cons c cs)) = true := by
      simpa [wf_node] using hwf
    have hv : v = [] := by
      have := hwf2
      simp only [Bool.and_eq_true, beq_iff_eq] at this
      exact this.1.1
    have hvl : vl = 0 := by
      have := hwf2
      simp only [Bool.and_eq_true, beq_iff_eq] at this
      exact this.1.2
    have hwfl : wf_list (.cons c cs) = true := by
      have := hwf2
      simp only [Bool.and_eq_true] at this
      exact this.2
    cases fuel with
    | zero => simp [tree_fuel] at hfuel
    | succ f =>
      have hfl : tree_fuel_list (.cons c cs) ≤ f := by
        simp only [tree_fuel] at hfuel
        omega
      obtain ⟨ms, hms, heq⟩ := tree_decode_encode_list (.cons c cs) f rest hwfl hfl
      refine ⟨.mk i 0 (if i = 0 then 0 else 1 + ms.sum_non_term) [] 0 none ms, ?_, ?_⟩
      · show tree_decode (f + 1)
            ((i :: 0 :: node_list.length (.cons c cs) :: tree_encode_list (.cons c cs)) ++ rest) = _
        simp only [List.cons_append, tree_decode]
        rw [hms]
      · subst hv hvl
        simp [node_equal, heq]

theorem tree_decode_encode_list : ∀ (subs : node_list) (fuel : Nat) (rest : List Nat),
    wf_list subs = true → tree_fuel_list subs ≤ fuel →
    ∃ ms, tree_decode_list fuel subs.length (tree_encode_list subs ++ rest)
        = some (ms, rest) ∧
      node_list_equal subs ms = true
  | .nil, fuel, rest, _, hfuel => by
    cases fuel with
    | zero => simp [tree_fuel_list] at hfuel
    | succ f =>
      exact ⟨.nil, by simp [tree_encode_list, node_list.length, tree_decode_list],
        by simp [node_list_equal]⟩
  | .cons c cs, fuel, rest, hwf, hfuel => by
    have hwc : wf_node c = true := by
      have := hwf
      simp only [wf_list, Bool.and_eq_true] at this
      exact this.1
    have hwcs : wf_list cs = true := by
      have := hwf
      simp only [wf_list, Bool.and_eq_true] at this
      exact this.2
    cases fuel with
    | zero => simp [tree_fuel_list] at hfuel
    | succ f =>
      have hfc : tree_fuel c ≤ f := by
        simp only [tree_fuel_list] at hfuel
        omega
      have hfcs : tree_fuel_list cs ≤ f := by
        simp only [tree_fuel_list] at hfuel
        omega
      obtain ⟨m, hm, he⟩ := tree_decode_encode c f (tree_encode_list cs ++ rest) hwc hfc
      obtain ⟨ms, hms, hes⟩ := tree_decode_encode_list cs f rest hwcs hfcs
      refine ⟨.cons m ms, ?_, ?_⟩
      · show tree_decode_list (f + 1) (node_list.length (.cons c cs))
            ((tree_encode c ++ tree_encode_list cs) ++ rest) = _
        rw [show node_list.length (.cons c cs) = cs.length + 1 from rfl]
        simp only [tree_decode_list, List.append_assoc]
        rw [hm]
        dsimp only
        rw [hms]
      · simp [node_list_equal, he, hes]

end

/-- Claim C7 (status: confirmed, spec-modelled).  Decoding the structural
encoding of a tree yields a tree structurally equal to it (same rule ids,
same terminal values, same ordered shape), for every tree whose value
buffers are well formed.  -/
theorem c7_structural_roundtrip (t : tree_t) (h : wf_node t.root = true) :
    ∃ m, tree_decode (tree_fuel t.root) (tree_encode t.root) = some (m, []) ∧
      node_equal t.root m = true := by
  obtain ⟨m, hm, he⟩ := tree_decode_encode t.root (tree_fuel t.root) [] h (le_refl _)
  exact ⟨m, by simpa using hm, he⟩

/-- Witness for C7: the generated tree `START(JSON(ELEMENT:"null"))` decodes
back to a structurally equal tree. -/
theorem c7_witness :
    ∃ m, tree_decode (tree_fuel gen_zero_tree) (tree_encode gen_zero_tree) = some (m, []) ∧
      node_equal gen_zero_tree m = true :=
  c7_structural_roundtrip ⟨gen_zero_tree, 0, [], 0⟩ (by decide)

/-! ## The heap model (claims C3 and C9)

Aliasing, ownership and freeing are not visible in the value model, so the
mutation engine is embedded a second time over an explicit store: addresses
are naturals, the heap maps an address to a node cell or `none` (freed /
never allocated), and the allocator hands out consecutive addresses from a
counter.  The generators' allocation discipline (fresh cells, children
assigned directly, parent pointers never written) and the spec-modelled
`tree_clone` (fresh cells, parent pointers rewired) become two modes of one
allocation routine.  -/

/-- A node cell in the store: the fields of `struct tree_node`, with the
child array and the parent pointer holding addresses.  -/
structure hcell where
  id : Nat
  recursion_edge_size : Nat
  non_term_size : Nat
  val : List Nat
  val_len : Nat
  parent : Option Nat
  subnodes : List Nat
  deriving DecidableEq

def Heap : Type := Nat → Option hcell

def hupdate (h : Heap) (a : Nat) (c : hcell) : Heap :=
  fun b => if b = a then some c else h b

def hremove (h : Heap) (a : Nat) : Heap :=
  fun b => if b = a then none else h b

mutual

/-- Store a pure tree into the heap on fresh consecutive addresses, the node
before its children.  With `wire = true` each child cell's `parent` is set to
its owner's address (the spec-modelled `tree_clone`, §4.3); with
`wire = false` every allocated cell keeps the parent value handed down
(`none` at top level) — the generated `gen_X` code never writes `parent`.
Returns the root address, the new heap and the new counter.  -/
def alloc_node (wire : Bool) : node_t → Option Nat → Heap → Nat → Nat × Heap × Nat
  | .mk i r nts v vl _ subs, pa, h, cnt =>
    let a := cnt
    let q := alloc_list wire subs (if wire then some a else none) h (cnt + 1)
    (a, hupdate q.2.1 a ⟨i, r, nts, v, vl, pa, q.1⟩, q.2.2)

def alloc_list (wire : Bool) : node_list → Option Nat → Heap → Nat → List Nat × Heap × Nat
  | .nil, _, h, cnt => ([], h, cnt)
  | .cons c rest, pa, h, cnt =>
    let q1 := alloc_node wire c pa h cnt
    let q2 := alloc_list wire rest pa q1.2.1 q1.2.2
    (q1.1 :: q2.1, q2.2.1, q2.2.2)

end

mutual

/-- Read the pure tree stored at an address (fuel-bounded; enough fuel always
exists for an allocator-built tree).  -/
def read_tree : Nat → Heap → Nat → Option node_t
  | 0, _, _ => none
  | fuel + 1, h, a =>
    match h a with
    | none => none
    | some c =>
      match read_list fuel h c.subnodes with
      | none => none
      | some subs =>
        some (.mk c.id c.recursion_edge_size c.non_term_size c.val c.val_len c.parent subs)
  termination_by structural fuel => fuel

def read_list : Nat → Heap → List Nat → Option node_list
  | 0, _, _ => none
  | _ + 1, _, [] => some .nil
  | fuel + 1, h, a :: as =>
    match read_tree fuel h a with
    | none => none
    | some c =>
      match read_list fuel h as with
      | none => none
      | some cs => some (.cons c cs)
  termination_by structural fuel => fuel

end

mutual

/-- The function `_pick_node` over the store: identical control flow to the value-level
`pick_node`, returning the address of the picked node.  -/
def pick_addr : Nat → Heap → Nat → Rand → Option Nat × Rand
  | 0, _, _, s => (none, s)
  | fuel + 1, h, a, s =>
    let rr := rand_next s
    if rr.1 % 2 ≠ 0 then (some a, rr.2)
    else
      match h a with
      | none => (none, rr.2)
      | some c => pick_addr_list fuel h c.subnodes rr.2
  termination_by structural fuel => fuel

def pick_addr_list : Nat → Heap → List Nat → Rand → Option Nat × Rand
  | 0, _, _, s => (none, s)
  | _ + 1, _, [], s => (none, s)
  | fuel + 1, h, a :: as, s =>
    let q := pick_addr fuel h a s
    match q.1 with
    | some b => (some b, q.2)
    | none => pick_addr_list fuel h as q.2
  termination_by structural fuel => fuel

end

mutual

/-- The proper descendants of an address (children, then their descendants,
in order), fuel-bounded.  -/
def descendants : Nat → Heap → Nat → List Nat
  | 0, _, _ => []
  | fuel + 1, h, a =>
    match h a with
    | none => []
    | some c => c.subnodes ++ descendants_list fuel h c.subnodes
  termination_by structural fuel => fuel

def descendants_list : Nat → Heap → List Nat → List Nat
  | 0, _, _ => []
  | _ + 1, _, [] => []
  | fuel + 1, h, a :: as => descendants fuel h a ++ descendants_list fuel h as
  termination_by structural fuel => fuel

end

mutual

/-- The function `node_replace_subnode` (declared in `tree.h`, body in the absent
`tree.c`).  Modelled from the spec (§4.5): locate `old` among `root`'s
descendants by reference (address) identity, scanning each node's child
array and recursing in order; on a hit, substitute `new` at `old`'s position
in the owner's child array and point `new`'s parent at the owner; `old` is
not freed.  Returns false, leaving the store untouched, when `old` is not
found. -/
def node_replace_subnode : Nat → Heap → Nat → Nat → Nat → Bool × Heap
  | 0, h, _, _, _ => (false, h)
  | fuel + 1, h, root, old, new =>
    match h root with
    | none => (false, h)
    | some c =>
      if old ∈ c.subnodes then
        let h1 := hupdate h root { c with subnodes := c.subnodes.replace old new }
        let h2 :=
          match h1 new with
          | none => h1
          | some cn => hupdate h1 new { cn with parent := some root }
        (true, h2)
      else node_replace_list fuel h c.subnodes old new
  termination_by structural fuel => fuel

def node_replace_list : Nat → Heap → List Nat → Nat → Nat → Bool × Heap
  | 0, h, _, _, _ => (false, h)
  | _ + 1, h, [], _, _ => (false, h)
  | fuel + 1, h, a :: as, old, new =>
    let q := node_replace_subnode fuel h a old new
    if q.1 then q
    else node_replace_list fuel q.2 as old new
  termination_by structural fuel => fuel

end

mutual

/-- The addresses of the subtree rooted at `a` (the cells `node_free`
visits).  -/
def subtree_addrs : Nat → Heap → Nat → List Nat
  | 0, _, a => [a]
  | fuel + 1, h, a =>
    a :: (match h a with
      | none => []
      | some c => subtree_addrs_list fuel h c.subnodes)
  termination_by structural fuel => fuel

def subtree_addrs_list : Nat → Heap → List Nat → List Nat
  | 0, _, _ => []
  | _ + 1, _, [] => []
  | fuel + 1, h, a :: as => subtree_addrs fuel h a ++ subtree_addrs_list fuel h as
  termination_by structural fuel => fuel

end

/-- Remove a list of addresses from the store (`node_free`, modelled from the
spec: a recursive post-order free of the subtree).  -/
def free_addrs : Heap → List Nat → Heap
  | h, [] => h
  | h, a :: as => free_addrs (hremove h a) as

/-- A tree handle over the store (`struct tree`): root address plus the
tree-level fields.  -/
structure htree where
  root : Nat
  depth : Nat
  data : List Nat
  data_len : Nat

/-- The function `random_mutation` over the store, following `tree_mutation.c` line by
line: clone the input tree (fresh cells, spec-modelled `tree_clone`), pick a
node in the clone (`NULL` pick falls back to the clone root), read its
parent pointer, draw `max_depth`, run the dispatched generator (whose output
is stored without parent wiring, as the generated code builds it), then
either replace the clone root (no parent) or splice via
`node_replace_subnode`, and free the detached subtree.  `none` models the
crashes (dangling reads, `NULL` dispatch entry).  -/
def random_mutation_heap (fuel : Nat) (t : htree) (h : Heap) (cnt : Nat) (s : Rand) :
    Option (htree × Heap × Nat × Rand) :=
  match read_tree fuel h t.root with
  | none => none
  | some n =>
    let q := alloc_node true n none h cnt
    let cloneRoot := q.1
    let h1 := q.2.1
    let c1 := q.2.2
    let pk := pick_addr fuel h1 cloneRoot s
    let nodeA := pk.1.getD cloneRoot
    match h1 nodeA with
    | none => none
    | some nodeCell =>
      let rr := rand_next pk.2
      let md : Int := ((map_rand 15 rr.1 : Nat) : Int) + 1
      match gen_dispatch (fuel_for md) nodeCell.id 0 md rr.2 with
      | none => none
      | some g =>
        let qg := alloc_node false g.1 none h1 c1
        let newA := qg.1
        let h2 := qg.2.1
        let c2 := qg.2.2
        match nodeCell.parent with
        | none =>
          let h4 := free_addrs h2 (subtree_addrs fuel h2 nodeA)
          some ({ t with root := newA }, h4, c2, g.2)
        | some pa =>
          let rq := node_replace_subnode fuel h2 pa nodeA newA
          let h4 := free_addrs rq.2 (subtree_addrs fuel rq.2 nodeA)
          some ({ t with root := cloneRoot }, h4, c2, g.2)

/-! ## Properties of `node_replace_subnode` (claim C9) -/

/-- Updating an address that is already allocated does not change which
addresses are allocated. -/
theorem hupdate_isSome (h : Heap) (x : Nat) (cx c : hcell) (hx : h x = some cx) :
    ∀ a, ((hupdate h x c) a).isSome = (h a).isSome := by
  intro a
  unfold hupdate
  by_cases hax : a = x
  · subst hax
    simp [hx]
  · simp [hax]

mutual

/-- A failed replacement leaves the store untouched. -/
theorem replace_false_frame : ∀ (fuel : Nat) (h : Heap) (root old new : Nat),
    (node_replace_subnode fuel h root old new).1 = false →
    (node_replace_subnode fuel h root old new).2 = h
  | 0, h, root, old, new, _ => by simp [node_replace_subnode]
  | fuel + 1, h, root, old, new, hf => by
    simp only [node_replace_subnode] at hf ⊢
    cases hr : h root with
    | none => simp [hr]
    | some c =>
      rw [hr] at hf
      dsimp only at hf ⊢
      by_cases hm : old ∈ c.subnodes
      · rw [if_pos hm] at hf
        exact absurd hf (by simp)
      · rw [if_neg hm] at hf ⊢
        exact replace_list_false_frame fuel h c.subnodes old new hf

theorem replace_list_false_frame : ∀ (fuel : Nat) (h : Heap) (l : List Nat) (old new : Nat),
    (node_replace_list fuel h l old new).1 = false →
    (node_replace_list fuel h l old new).2 = h
  | 0, h, l, old, new, _ => by simp [node_replace_list]
  | _ + 1, h, [], old, new, _ => by simp [node_replace_list]
  | fuel + 1, h, a :: as, old, new, hf => by
    simp only [node_replace_list] at hf ⊢
    cases hq : (node_replace_subnode fuel h a old new).1 with
    | true =>
      rw [hq, if_pos rfl] at hf
      exact absurd hf (by simp [hq])
    | false =>
      rw [hq, if_neg Bool.false_ne_true] at hf
      rw [if_neg Bool.false_ne_true]
      rw [replace_false_frame fuel h a old new hq] at hf ⊢
      exact replace_list_false_frame fuel h as old new hf

end

mutual

/-- Replacement never frees (or allocates) anything: the set of live
addresses is unchanged — in particular the detached `old` stays live and its
ownership passes to the caller. -/
theorem replace_isSome : ∀ (fuel : Nat) (h : Heap) (root old new : Nat) (a : Nat),
    (((node_replace_subnode fuel h root old new).2) a).isSome = (h a).isSome
  | 0, h, root, old, new, a => by simp [node_replace_subnode]
  | fuel + 1, h, root, old, new, a => by
    simp only [node_replace_subnode]
    cases hr : h root with
    | none => simp [hr]
    | some c =>
      dsimp only
      by_cases hm : old ∈ c.subnodes
      · rw [if_pos hm]
        dsimp only
        cases hn : (hupdate h root { c with subnodes := c.subnodes.replace old new }) new with
        | none =>
          dsimp only
          exact hupdate_isSome h root c _ hr a
        | some cn =>
          dsimp only
          rw [hupdate_isSome _ new cn _ hn a]
          exact hupdate_isSome h root c _ hr a
      · rw [if_neg hm]
        exact replace_list_isSome fuel h c.subnodes old new a

theorem replace_list_isSome : ∀ (fuel : Nat) (h : Heap) (l : List Nat) (old new : Nat) (a : Nat),
    (((node_replace_list fuel h l old new).2) a).isSome = (h a).isSome
  | 0, h, l, old, new, a => by simp [node_replace_list]
  | _ + 1, h, [], old, new, a => by simp [node_replace_list]
  | fuel + 1, h, a0 :: as, old, new, a => by
    simp only [node_replace_list]
    cases hq : (node_replace_subnode fuel h a0 old new).1 with
    | true =>
      rw [if_pos rfl]
      exact replace_isSome fuel h a0 old new a
    | false =>
      rw [if_neg Bool.false_ne_true]
      rw [replace_list_isSome fuel _ as old new a]
      exact replace_isSome fuel h a0 old new a

end

mutual

/-- Success of the search is exactly membership of `old` among `root`'s
descendants (by address identity). -/
theorem replace_true_iff : ∀ (fuel : Nat) (h : Heap) (root old new : Nat),
    (node_replace_subnode fuel h root old new).1 = true ↔
      old ∈ descendants fuel h root
  | 0, h, root, old, new => by simp [node_replace_subnode, descendants]
  | fuel + 1, h, root, old, new => by
    simp only [node_replace_subnode, descendants]
    cases hr : h root with
    | none => simp [hr]
    | some c =>
      dsimp only
      by_cases hm : old ∈ c.subnodes
      · rw [if_pos hm]
        simp [hm]
      · rw [if_neg hm]
        rw [replace_list_true_iff fuel h c.subnodes old new]
        simp [List.mem_append, hm]

theorem replace_list_true_iff : ∀ (fuel : Nat) (h : Heap) (l : List Nat) (old new : Nat),
    (node_replace_list fuel h l old new).1 = true ↔
      old ∈ descendants_list fuel h l
  | 0, h, l, old, new => by simp [node_replace_list, descendants_list]
  | _ + 1, h, [], old, new => by simp [node_replace_list, descendants_list]
  | fuel + 1, h, a0 :: as, old, new => by
    simp only [node_replace_list, descendants_list]
    cases hq : (node_replace_subnode fuel h a0 old new).1 with
    | true =>
      rw [if_pos rfl]
      simp only [List.mem_append]
      constructor
      · intro _
        exact Or.inl ((replace_true_iff fuel h a0 old new).mp hq)
      · intro _
        exact hq
    | false =>
      rw [if_neg Bool.false_ne_true]
      rw [replace_false_frame fuel h a0 old new hq]
      rw [replace_list_true_iff fuel h as old new]
      have hno : old ∉ descendants fuel h a0 := by
        intro hmem
        have := (replace_true_iff fuel h a0 old new).mpr hmem
        rw [hq] at this
        exact absurd this (by simp)
      simp [List.mem_append, hno]

end

/-- The first occurrence of a member survives `List.replace` as the
replacement, at the same position. -/
theorem replace_get_pos {old new : Nat} : ∀ (l : List Nat), old ∈ l →
    ∃ i, l.get? i = some old ∧ (l.replace old new).get? i = some new := by
  intro l hl
  induction l with
  | nil => simp at hl
  | cons b bs ih =>
    by_cases hb : b = old
    · subst hb
      refine ⟨0, rfl, ?_⟩
      simp [List.replace]
    · have hbs : old ∈ bs := by
        rcases List.mem_cons.mp hl with h1 | h1
        · exact absurd h1.symm hb
        · exact h1
      obtain ⟨i, h1, h2⟩ := ih hbs
      refine ⟨i + 1, h1, ?_⟩
      have hbeq : (old == b) = false := by
        simp only [beq_eq_false_iff_ne, ne_eq]
        intro hx
        exact hb hx.symm
      have hrep : (b :: bs).replace old new = b :: bs.replace old new := by
        simp [List.replace, hbeq]
      rw [hrep]
      exact h2

mutual

/-- On success, the owner of `old` holds `new` at `old`'s position: there is
a parent cell whose child array contained `old` at index `i` and whose child
array in the result is the original with the first `old` replaced by `new`
(hence `new` at index `i`).  -/
theorem replace_true_pos : ∀ (fuel : Nat) (h : Heap) (root old new : Nat),
    (node_replace_subnode fuel h root old new).1 = true →
    ∃ p c i, h p = some c ∧ c.subnodes.get? i = some old ∧
      ∃ c2, ((node_replace_subnode fuel h root old new).2) p = some c2 ∧
        c2.subnodes = c.subnodes.replace old new ∧
        (c.subnodes.replace old new).get? i = some new
  | 0, h, root, old, new, ht => by simp [node_replace_subnode] at ht
  | fuel + 1, h, root, old, new, ht => by
    simp only [node_replace_subnode] at ht ⊢
    cases hr : h root with
    | none =>
      rw [hr] at ht
      exact absurd ht (by simp)
    | some c =>
      rw [hr] at ht
      dsimp only at ht ⊢
      by_cases hm : old ∈ c.subnodes
      · rw [if_pos hm] at ht ⊢
        obtain ⟨i, h1, h2⟩ := replace_get_pos c.subnodes hm
        refine ⟨root, c, i, hr, h1, ?_⟩
        dsimp only
        cases hn : (hupdate h root { c with subnodes := c.subnodes.replace old new }) new with
        | none =>
          refine ⟨{ c with subnodes := c.subnodes.replace old new }, ?_, rfl, h2⟩
          simp [hupdate]
        | some cn =>
          dsimp only
          by_cases hnr : root = new
          · subst hnr
            have hcn : cn = { c with subnodes := c.subnodes.replace old root } := by
              simpa [hupdate] using hn.symm
            refine ⟨{ cn with parent := some root }, ?_, ?_, h2⟩
            · simp [hupdate]
            · rw [hcn]
          · refine ⟨{ c with subnodes := c.subnodes.replace old new }, ?_, rfl, h2⟩
            simp [hupdate, hnr]
      · rw [if_neg hm] at ht ⊢
        exact replace_list_true_pos fuel h c.subnodes old new ht

theorem replace_list_true_pos : ∀ (fuel : Nat) (h : Heap) (l : List Nat) (old new : Nat),
    (node_replace_list fuel h l old new).1 = true →
    ∃ p c i, h p = some c ∧ c.subnodes.get? i = some old ∧
      ∃ c2, ((node_replace_list fuel h l old new).2) p = some c2 ∧
        c2.subnodes = c.subnodes.replace old new ∧
        (c.subnodes.replace old new).get? i = some new
  | 0, h, l, old, new, ht => by simp [node_replace_list] at ht
  | _ + 1, h, [], old, new, ht => by simp [node_replace_list] at ht
  | fuel + 1, h, a0 :: as, old, new, ht => by
    simp only [node_replace_list] at ht ⊢
    cases hq : (node_replace_subnode fuel h a0 old new).1 with
    | true =>
      rw [if_pos rfl]
      exact replace_true_pos fuel h a0 old new hq
    | false =>
      rw [hq, if_neg Bool.false_ne_true] at ht
      rw [if_neg Bool.false_ne_true]
      rw [replace_false_frame fuel h a0 old new hq] at ht ⊢
      exact replace_list_true_pos fuel h as old new ht

end

/-- Claim C9 (status: confirmed, spec-modelled).  `node_replace_subnode` never
frees the replaced node (no address changes liveness, so the detached `old`
stays allocated and owned by the caller); it fails exactly when `old` is not
found among `root`'s descendants by reference identity, and a failure leaves
the store untouched; on success the parent's child sequence holds `new` at
`old`'s position.  -/
theorem c9_replace_subnode_contract (fuel : Nat) (h : Heap) (root old new : Nat) :
    (∀ a, (((node_replace_subnode fuel h root old new).2) a).isSome = (h a).isSome) ∧
    ((node_replace_subnode fuel h root old new).1 = false ↔
      old ∉ descendants fuel h root) ∧
    ((node_replace_subnode fuel h root old new).1 = false →
      (node_replace_subnode fuel h root old new).2 = h) ∧
    ((node_replace_subnode fuel h root old new).1 = true →
      ∃ p c i, h p = some c ∧ c.subnodes.get? i = some old ∧
        ∃ c2, ((node_replace_subnode fuel h root old new).2) p = some c2 ∧
          c2.subnodes = c.subnodes.replace old new ∧
          (c.subnodes.replace old new).get? i = some new) := by
  refine ⟨replace_isSome fuel h root old new, ?_, replace_false_frame fuel h root old new,
    replace_true_pos fuel h root old new⟩
  rw [← replace_true_iff fuel h root old new]
  cases hq : (node_replace_subnode fuel h root old new).1 <;> simp [hq]

/-- Witness for C9: a three-cell store (a root owning one child, plus a
fresh replacement node); the replacement succeeds and all parts apply. -/
def c9_heap : Heap := fun a =>
  if a = 0 then some ⟨5, 0, 2, [], 0, none, [1]⟩
  else if a = 1 then some ⟨23, 0, 1, [], 0, some 0, []⟩
  else if a = 2 then some ⟨23, 0, 1, [], 0, none, []⟩
  else none

theorem c9_witness :
    ((node_replace_subnode 4 c9_heap 0 1 2).1 = false ↔ (1 : Nat) ∉ descendants 4 c9_heap 0) ∧
    (∃ p c i, c9_heap p = some c ∧ c.subnodes.get? i = some 1 ∧
      ∃ c2, ((node_replace_subnode 4 c9_heap 0 1 2).2) p = some c2 ∧
        c2.subnodes = c.subnodes.replace 1 2 ∧
        (c.subnodes.replace 1 2).get? i = some 2) :=
  ⟨(c9_replace_subnode_contract 4 c9_heap 0 1 2).2.1,
   (c9_replace_subnode_contract 4 c9_heap 0 1 2).2.2.2 (by decide)⟩

/-! ## Frame reasoning for the heap mutation engine (claim C3) -/

/-- All cells of `[lo, hi)` exist and their child pointers stay inside
`[lo, hi)`.  The allocator establishes this for every region it fills.  -/
def region_closed (h : Heap) (lo hi : Nat) : Prop :=
  ∀ a, lo ≤ a → a < hi → ∃ c, h a = some c ∧ ∀ b ∈ c.subnodes, lo ≤ b ∧ b < hi

mutual

/-- The allocator: bumps the counter, writes only fresh addresses, returns
the base address, and fills `[cnt, cnt')` with cells whose children (and,
when wired, parents) stay inside the fresh region (parents may also point
just below, at the owner handed in).  -/
theorem alloc_node_spec (wire : Bool) : ∀ (n : node_t) (pa : Option Nat) (h : Heap) (cnt lo : Nat),
    lo ≤ cnt →
    (pa = none ∨ ∃ b, pa = some b ∧ lo ≤ b ∧ b < cnt) →
    cnt < (alloc_node wire n pa h cnt).2.2 ∧
    (alloc_node wire n pa h cnt).1 = cnt ∧
    (∀ a, a < cnt ∨ (alloc_node wire n pa h cnt).2.2 ≤ a →
      (alloc_node wire n pa h cnt).2.1 a = h a) ∧
    (∀ a, cnt ≤ a → a < (alloc_node wire n pa h cnt).2.2 →
      ∃ c, (alloc_node wire n pa h cnt).2.1 a = some c ∧
        (∀ b ∈ c.subnodes, cnt ≤ b ∧ b < (alloc_node wire n pa h cnt).2.2) ∧
        (c.parent = none ∨ ∃ b, c.parent = some b ∧ lo ≤ b ∧
          b < (alloc_node wire n pa h cnt).2.2))
  | .mk i r nts v vl p subs, pa, h, cnt, lo, hlo, hpa => by
    obtain ⟨L1, L2, L3, L4⟩ :=
      alloc_list_spec wire subs (if wire then some cnt else none) h (cnt + 1) lo
        (by omega)
        (by
          by_cases hw : wire
          · exact Or.inr ⟨cnt, by simp [hw], by omega, by omega⟩
          · exact Or.inl (by simp [hw]))
    simp only [alloc_node]
    refine ⟨by omega, by trivial, ?_, ?_⟩
    · intro a ha
      unfold hupdate
      rw [if_neg (by omega)]
      exact L2 a (by omega)
    · intro a h1 h2
      by_cases hac : a = cnt
      · refine ⟨⟨i, r, nts, v, vl, pa,
            (alloc_list wire subs (if wire then some cnt else none) h (cnt + 1)).1⟩, ?_, ?_, ?_⟩
        · unfold hupdate
          rw [if_pos hac]
        · intro b hb
          have := L3 b hb
          omega
        · rcases hpa with hp1 | ⟨b, hb, hb1, hb2⟩
          · exact Or.inl hp1
          · exact Or.inr ⟨b, hb, hb1, by omega⟩
      · obtain ⟨c, hc, hcs, hcp⟩ := L4 a (by omega) h2
        refine ⟨c, ?_, ?_, ?_⟩
        · unfold hupdate
          rw [if_neg hac]
          exact hc
        · intro b hb
          have := hcs b hb
          omega
        · rcases hcp with hp1 | ⟨b, hb, hb1, hb2⟩
          · exact Or.inl hp1
          · exact Or.inr ⟨b, hb, hb1, hb2⟩

theorem alloc_list_spec (wire : Bool) : ∀ (l : node_list) (pa : Option Nat) (h : Heap) (cnt lo : Nat),
    lo ≤ cnt →
    (pa = none ∨ ∃ b, pa = some b ∧ lo ≤ b ∧ b < cnt) →
    cnt ≤ (alloc_list wire l pa h cnt).2.2 ∧
    (∀ a, a < cnt ∨ (alloc_list wire l pa h cnt).2.2 ≤ a →
      (alloc_list wire l pa h cnt).2.1 a = h a) ∧
    (∀ b ∈ (alloc_list wire l pa h cnt).1, cnt ≤ b ∧ b < (alloc_list wire l pa h cnt).2.2) ∧
    (∀ a, cnt ≤ a → a < (alloc_list wire l pa h cnt).2.2 →
      ∃ c, (alloc_list wire l pa h cnt).2.1 a = some c ∧
        (∀ b ∈ c.subnodes, cnt ≤ b ∧ b < (alloc_list wire l pa h cnt).2.2) ∧
        (c.parent = none ∨ ∃ b, c.parent = some b ∧ lo ≤ b ∧
          b < (alloc_list wire l pa h cnt).2.2))
  | .nil, pa, h, cnt, lo, hlo, hpa => by
    simp only [alloc_list]
    refine ⟨by omega, fun a _ => by trivial, by simp, ?_⟩
    intro a h1 h2
    omega
  | .cons c0 rest, pa, h, cnt, lo, hlo, hpa => by
    obtain ⟨A1, Aroot, Aframe, Aclosure⟩ := alloc_node_spec wire c0 pa h cnt lo hlo hpa
    obtain ⟨B1, Bframe, Bmem, Bclosure⟩ :=
      alloc_list_spec wire rest pa (alloc_node wire c0 pa h cnt).2.1
        (alloc_node wire c0 pa h cnt).2.2 lo (by omega)
        (by
          rcases hpa with hp1 | ⟨b, hb, hb1, hb2⟩
          · exact Or.inl hp1
          · exact Or.inr ⟨b, hb, hb1, by omega⟩)
    simp only [alloc_list]
    refine ⟨by omega, ?_, ?_, ?_⟩
    · intro a ha
      rw [Bframe a (by omega), Aframe a (by omega)]
    · intro b hb
      rcases List.mem_cons.mp hb with h1 | h1
      · subst h1
        rw [Aroot]
        omega
      · have := Bmem b h1
        omega
    · intro a h1 h2
      by_cases hsplit : a < (alloc_node wire c0 pa h cnt).2.2
      · obtain ⟨c, hc, hcs, hcp⟩ := Aclosure a h1 hsplit
        refine ⟨c, ?_, ?_, ?_⟩
        · rw [Bframe a (by omega)]
          exact hc
        · intro b hb
          have := hcs b hb
          omega
        · rcases hcp with hp1 | ⟨b, hb, hb1, hb2⟩
          · exact Or.inl hp1
          · exact Or.inr ⟨b, hb, hb1, by omega⟩
      · obtain ⟨c, hc, hcs, hcp⟩ := Bclosure a (by omega) h2
        refine ⟨c, hc, ?_, ?_⟩
        · intro b hb
          have := hcs b hb
          omega
        · rcases hcp with hp1 | ⟨b, hb, hb1, hb2⟩
          · exact Or.inl hp1
          · exact Or.inr ⟨b, hb, hb1, hb2⟩

end

mutual

/-- A successful pick inside a closed region stays inside the region. -/
theorem pick_addr_region : ∀ (fuel : Nat) (h : Heap) (x : Nat) (s : Rand) (lo hi : Nat),
    region_closed h lo hi → lo ≤ x → x < hi →
    ∀ b, (pick_addr fuel h x s).1 = some b → lo ≤ b ∧ b < hi
  | 0, h, x, s, lo, hi, hrc, hx1, hx2, b, hb => by simp [pick_addr] at hb
  | fuel + 1, h, x, s, lo, hi, hrc, hx1, hx2, b, hb => by
    simp only [pick_addr] at hb
    by_cases hc : (rand_next s).1 % 2 ≠ 0
    · rw [if_pos hc] at hb
      obtain rfl : x = b := by simpa using hb
      exact ⟨hx1, hx2⟩
    · rw [if_neg hc] at hb
      obtain ⟨c, hcx, hsub⟩ := hrc x hx1 hx2
      rw [hcx] at hb
      exact pick_addr_list_region fuel h c.subnodes (rand_next s).2 lo hi hrc hsub b hb

theorem pick_addr_list_region : ∀ (fuel : Nat) (h : Heap) (l : List Nat) (s : Rand) (lo hi : Nat),
    region_closed h lo hi → (∀ y ∈ l, lo ≤ y ∧ y < hi) →
    ∀ b, (pick_addr_list fuel h l s).1 = some b → lo ≤ b ∧ b < hi
  | 0, h, l, s, lo, hi, hrc, hl, b, hb => by simp [pick_addr_list] at hb
  | _ + 1, h, [], s, lo, hi, hrc, hl, b, hb => by simp [pick_addr_list] at hb
  | fuel + 1, h, a :: as, s, lo, hi, hrc, hl, b, hb => by
    simp only [pick_addr_list] at hb
    cases hq : (pick_addr fuel h a s).1 with
    | some b0 =>
      rw [hq] at hb
      dsimp only at hb
      obtain rfl : b0 = b := by simpa using hb
      exact pick_addr_region fuel h a s lo hi hrc (hl a (by simp)).1 (hl a (by simp)).2 _ hq
    | none =>
      rw [hq] at hb
      dsimp only at hb
      exact pick_addr_list_region fuel h as (pick_addr fuel h a s).2 lo hi hrc
        (fun y hy => hl y (by simp [hy])) b hb

end

mutual

/-- Descendants of a region address stay inside the region. -/
theorem descendants_region : ∀ (fuel : Nat) (h : Heap) (x : Nat) (lo hi : Nat),
    region_closed h lo hi → lo ≤ x → x < hi →
    ∀ b ∈ descendants fuel h x, lo ≤ b ∧ b < hi
  | 0, h, x, lo, hi, hrc, hx1, hx2, b, hb => by simp [descendants] at hb
  | fuel + 1, h, x, lo, hi, hrc, hx1, hx2, b, hb => by
    simp only [descendants] at hb
    obtain ⟨c, hcx, hsub⟩ := hrc x hx1 hx2
    rw [hcx] at hb
    dsimp only at hb
    rcases List.mem_append.mp hb with h1 | h1
    · exact hsub b h1
    · exact descendants_list_region fuel h c.subnodes lo hi hrc hsub b h1

theorem descendants_list_region : ∀ (fuel : Nat) (h : Heap) (l : List Nat) (lo hi : Nat),
    region_closed h lo hi → (∀ y ∈ l, lo ≤ y ∧ y < hi) →
    ∀ b ∈ descendants_list fuel h l, lo ≤ b ∧ b < hi
  | 0, h, l, lo, hi, hrc, hl, b, hb => by simp [descendants_list] at hb
  | _ + 1, h, [], lo, hi, hrc, hl, b, hb => by simp [descendants_list] at hb
  | fuel + 1, h, a :: as, lo, hi, hrc, hl, b, hb => by
    simp only [descendants_list] at hb
    rcases List.mem_append.mp hb with h1 | h1
    · exact descendants_region fuel h a lo hi hrc (hl a (by simp)).1 (hl a (by simp)).2 b h1
    · exact descendants_list_region fuel h as lo hi hrc (fun y hy => hl y (by simp [hy])) b h1

end

mutual

/-- The subtree addresses of a region address stay inside the region. -/
theorem subtree_addrs_region : ∀ (fuel : Nat) (h : Heap) (x : Nat) (lo hi : Nat),
    region_closed h lo hi → lo ≤ x → x < hi →
    ∀ b ∈ subtree_addrs fuel h x, lo ≤ b ∧ b < hi
  | 0, h, x, lo, hi, hrc, hx1, hx2, b, hb => by
    simp only [subtree_addrs, List.mem_singleton] at hb
    subst hb
    exact ⟨hx1, hx2⟩
  | fuel + 1, h, x, lo, hi, hrc, hx1, hx2, b, hb => by
    simp only [subtree_addrs] at hb
    rcases List.mem_cons.mp hb with h1 | h1
    · subst h1
      exact ⟨hx1, hx2⟩
    · obtain ⟨c, hcx, hsub⟩ := hrc x hx1 hx2
      rw [hcx] at h1
      exact subtree_addrs_list_region fuel h c.subnodes lo hi hrc hsub b h1

theorem subtree_addrs_list_region : ∀ (fuel : Nat) (h : Heap) (l : List Nat) (lo hi : Nat),
    region_closed h lo hi → (∀ y ∈ l, lo ≤ y ∧ y < hi) →
    ∀ b ∈ subtree_addrs_list fuel h l, lo ≤ b ∧ b < hi
  | 0, h, l, lo, hi, hrc, hl, b, hb => by simp [subtree_addrs_list] at hb
  | _ + 1, h, [], lo, hi, hrc, hl, b, hb => by simp [subtree_addrs_list] at hb
  | fuel + 1, h, a :: as, lo, hi, hrc, hl, b, hb => by
    simp only [subtree_addrs_list] at hb
    rcases List.mem_append.mp hb with h1 | h1
    · exact subtree_addrs_region fuel h a lo hi hrc (hl a (by simp)).1 (hl a (by simp)).2 b h1
    · exact subtree_addrs_list_region fuel h as lo hi hrc (fun y hy => hl y (by simp [hy])) b h1

end

mutual

/-- Replacement writes only at the replacement node, the search root, or one
of its descendants. -/
theorem replace_writes : ∀ (fuel : Nat) (h : Heap) (root old new a : Nat),
    (node_replace_subnode fuel h root old new).2 a ≠ h a →
    a = new ∨ a = root ∨ a ∈ descendants fuel h root
  | 0, h, root, old, new, a, hne => by
    simp [node_replace_subnode] at hne
  | fuel + 1, h, root, old, new, a, hne => by
    simp only [node_replace_subnode] at hne
    cases hr : h root with
    | none => rw [hr] at hne; simp at hne
    | some c =>
      rw [hr] at hne
      dsimp only at hne
      by_cases hm : old ∈ c.subnodes
      · rw [if_pos hm] at hne
        dsimp only at hne
        by_cases han : a = new
        · exact Or.inl han
        · by_cases har : a = root
          · exact Or.inr (Or.inl har)
          · exfalso
            apply hne
            cases hn : (hupdate h root { c with subnodes := c.subnodes.replace old new }) new with
            | none =>
              simp only [hupdate]
              rw [if_neg har]
            | some cn =>
              simp only [hupdate]
              rw [if_neg han, if_neg har]
      · rw [if_neg hm] at hne
        rcases replace_list_writes fuel h c.subnodes old new a hne with h1 | h1 | h1
        · exact Or.inl h1
        · refine Or.inr (Or.inr ?_)
          simp only [descendants]
          rw [hr]
          dsimp only
          exact List.mem_append.mpr (Or.inl h1)
        · refine Or.inr (Or.inr ?_)
          simp only [descendants]
          rw [hr]
          dsimp only
          exact List.mem_append.mpr (Or.inr h1)

theorem replace_list_writes : ∀ (fuel : Nat) (h : Heap) (l : List Nat) (old new a : Nat),
    (node_replace_list fuel h l old new).2 a ≠ h a →
    a = new ∨ a ∈ l ∨ a ∈ descendants_list fuel h l
  | 0, h, l, old, new, a, hne => by simp [node_replace_list] at hne
  | _ + 1, h, [], old, new, a, hne => by simp [node_replace_list] at hne
  | fuel + 1, h, a0 :: as, old, new, a, hne => by
    simp only [node_replace_list] at hne
    cases hq : (node_replace_subnode fuel h a0 old new).1 with
    | true =>
      rw [if_pos (by rw [hq])] at hne
      rcases replace_writes fuel h a0 old new a hne with h1 | h1 | h1
      · exact Or.inl h1
      · exact Or.inr (Or.inl (by simp [h1]))
      · refine Or.inr (Or.inr ?_)
        simp only [descendants_list]
        exact List.mem_append.mpr (Or.inl h1)
    | false =>
      rw [if_neg (by rw [hq]; exact Bool.false_ne_true)] at hne
      rw [replace_false_frame fuel h a0 old new hq] at hne
      rcases replace_list_writes fuel h as old new a hne with h1 | h1 | h1
      · exact Or.inl h1
      · exact Or.inr (Or.inl (by simp [h1]))
      · refine Or.inr (Or.inr ?_)
        simp only [descendants_list]
        exact List.mem_append.mpr (Or.inr h1)

end

mutual

/-- Replacement rewrites existing cells only: wherever the store changed, an
existing cell was replaced by one with the same or the substituted child
array (the parent pointer possibly redirected). -/
theorem replace_cells : ∀ (fuel : Nat) (h : Heap) (root old new a : Nat),
    (node_replace_subnode fuel h root old new).2 a = h a ∨
    ∃ c c2, h a = some c ∧ (node_replace_subnode fuel h root old new).2 a = some c2 ∧
      (c2.subnodes = c.subnodes ∨ c2.subnodes = c.subnodes.replace old new)
  | 0, h, root, old, new, a => by simp [node_replace_subnode]
  | fuel + 1, h, root, old, new, a => by
    simp only [node_replace_subnode]
    cases hr : h root with
    | none => left; rfl
    | some c =>
      dsimp only
      by_cases hm : old ∈ c.subnodes
      · rw [if_pos hm]
        dsimp only
        by_cases har : a = root
        · subst har
          cases hn : (hupdate h a { c with subnodes := c.subnodes.replace old new }) new with
          | none =>
            right
            refine ⟨c, { c with subnodes := c.subnodes.replace old new }, hr, ?_, Or.inr rfl⟩
            simp [hupdate]
          | some cn =>
            by_cases han : a = new
            · subst han
              right
              have hcn : cn = { c with subnodes := c.subnodes.replace old a } := by
                simpa [hupdate] using hn.symm
              refine ⟨c, { cn with parent := some a }, hr, ?_, ?_⟩
              · simp [hupdate]
              · rw [hcn]
                exact Or.inr rfl
            · right
              refine ⟨c, { c with subnodes := c.subnodes.replace old new }, hr, ?_, Or.inr rfl⟩
              simp [hupdate, han]
        · cases hn : (hupdate h root { c with subnodes := c.subnodes.replace old new }) new with
          | none =>
            left
            simp [hupdate, har]
          | some cn =>
            by_cases han : a = new
            · have hne : new ≠ root := fun hx => har (by rw [han, hx])
              have hcnh : h new = some cn := by
                have h3 := hn
                simp only [hupdate] at h3
                rwa [if_neg hne] at h3
              right
              refine ⟨cn, { cn with parent := some root }, by rw [han]; exact hcnh, ?_, Or.inl rfl⟩
              simp [hupdate, han]
            · left
              simp [hupdate, han, har]
      · rw [if_neg hm]
        exact replace_list_cells fuel h c.subnodes old new a

theorem replace_list_cells : ∀ (fuel : Nat) (h : Heap) (l : List Nat) (old new a : Nat),
    (node_replace_list fuel h l old new).2 a = h a ∨
    ∃ c c2, h a = some c ∧ (node_replace_list fuel h l old new).2 a = some c2 ∧
      (c2.subnodes = c.subnodes ∨ c2.subnodes = c.subnodes.replace old new)
  | 0, h, l, old, new, a => by simp [node_replace_list]
  | _ + 1, h, [], old, new, a => by simp [node_replace_list]
  | fuel + 1, h, a0 :: as, old, new, a => by
    simp only [node_replace_list]
    cases hq : (node_replace_subnode fuel h a0 old new).1 with
    | true =>
      rw [if_pos rfl]
      exact replace_cells fuel h a0 old new a
    | false =>
      rw [if_neg Bool.false_ne_true]
      rw [replace_false_frame fuel h a0 old new hq]
      exact replace_list_cells fuel h as old new a

end

/-- Members of a list after `List.replace` were members before or are the
replacement. -/
theorem mem_of_mem_replace {o n : Nat} : ∀ (l : List Nat) (b : Nat),
    b ∈ l.replace o n → b ∈ l ∨ b = n := by
  intro l
  induction l with
  | nil => intro b hb; simp [List.replace] at hb
  | cons x xs ih =>
    intro b hb
    by_cases hx : (o == x) = true
    · rw [show (x :: xs).replace o n = n :: xs from by simp [List.replace, hx]] at hb
      rcases List.mem_cons.mp hb with h1 | h1
      · exact Or.inr h1
      · exact Or.inl (by simp [h1])
    · rw [show (x :: xs).replace o n = x :: xs.replace o n from by
          simp only [List.replace]
          rw [show (o == x) = false from by simpa using hx]] at hb
      rcases List.mem_cons.mp hb with h1 | h1
      · exact Or.inl (by simp [h1])
      · rcases ih b h1 with h2 | h2
        · exact Or.inl (by simp [h2])
        · exact Or.inr h2

/-- Freeing a list of addresses leaves every other address untouched. -/
theorem free_addrs_frame : ∀ (l : List Nat) (h : Heap) (a : Nat),
    a ∉ l → free_addrs h l a = h a := by
  intro l
  induction l with
  | nil => intro h a _; rfl
  | cons x xs ih =>
    intro h a ha
    simp only [free_addrs]
    rw [ih (hremove h x) a (fun hx => ha (by simp [hx]))]
    unfold hremove
    rw [if_neg (fun hx => ha (by simp [hx]))]

/-- Claim C3 (status: confirmed, clone spec-modelled).  `random_mutation` does
not modify its input tree: every address the store holds before the call
(in particular every cell of the input tree, and hence its structure, node
values, cached counts — and the tree record with its rendered byte buffer,
which the function never writes) is unchanged after the call.  All writes of
the engine (the clone's cells, the generated replacement's cells, the splice
and the free of the detached subtree) land at or above the allocation
counter `cnt`.  -/
theorem c3_random_mutation_frame (fuel : Nat) (t : htree) (h : Heap) (cnt : Nat) (s : Rand)
    (res : htree × Heap × Nat × Rand)
    (hrm : random_mutation_heap fuel t h cnt s = some res) :
    (∀ a, a < cnt → res.2.1 a = h a) ∧
    ((∀ a, h a ≠ none → a < cnt) → ∀ a, h a ≠ none → res.2.1 a = h a) := by
  have main : ∀ a, a < cnt → res.2.1 a = h a := by
    intro a ha
    unfold random_mutation_heap at hrm
    dsimp only at hrm
    split at hrm
    · exact absurd hrm (by simp)
    · rename_i n hread
      split at hrm
      · exact absurd hrm (by simp)
      · rename_i nodeCell hcell
        split at hrm
        · exact absurd hrm (by simp)
        · rename_i g hdisp
          obtain ⟨A1, Aroot, Aframe, Aclosure⟩ :=
            alloc_node_spec true n none h cnt cnt (le_refl cnt) (Or.inl rfl)
          have RC1 : region_closed (alloc_node true n none h cnt).2.1 cnt
              (alloc_node true n none h cnt).2.2 := by
            intro x hx1 hx2
            obtain ⟨c, hc, hcs, _⟩ := Aclosure x hx1 hx2
            exact ⟨c, hc, hcs⟩
          have hnodeA : cnt ≤ (((pick_addr fuel (alloc_node true n none h cnt).2.1
                (alloc_node true n none h cnt).1 s).1).getD (alloc_node true n none h cnt).1) ∧
              (((pick_addr fuel (alloc_node true n none h cnt).2.1
                (alloc_node true n none h cnt).1 s).1).getD (alloc_node true n none h cnt).1)
                < (alloc_node true n none h cnt).2.2 := by
            cases hpk : (pick_addr fuel (alloc_node true n none h cnt).2.1
                (alloc_node true n none h cnt).1 s).1 with
            | none =>
              simp only [Option.getD]
              rw [Aroot]
              exact ⟨le_refl cnt, A1⟩
            | some b =>
              simp only [Option.getD]
              exact pick_addr_region fuel (alloc_node true n none h cnt).2.1
                (alloc_node true n none h cnt).1 s cnt (alloc_node true n none h cnt).2.2
                RC1 (by rw [Aroot]) (by rw [Aroot]; exact A1) b hpk
          obtain ⟨G1, Groot, Gframe, Gclosure⟩ :=
            alloc_node_spec false g.1 none (alloc_node true n none h cnt).2.1
              (alloc_node true n none h cnt).2.2 (alloc_node true n none h cnt).2.2
              (le_refl _) (Or.inl rfl)
          have RCc : region_closed
              (alloc_node false g.1 none (alloc_node true n none h cnt).2.1
                (alloc_node true n none h cnt).2.2).2.1 cnt
              (alloc_node false g.1 none (alloc_node true n none h cnt).2.1
                (alloc_node true n none h cnt).2.2).2.2 := by
            intro x hx1 hx2
            by_cases hx : x < (alloc_node true n none h cnt).2.2
            · obtain ⟨c, hc, hcs⟩ := RC1 x hx1 hx
              refine ⟨c, ?_, ?_⟩
              · rw [Gframe x (Or.inl hx)]
                exact hc
              · intro b hb
                have h5 := hcs b hb
                omega
            · obtain ⟨c, hc, hcs, _⟩ := Gclosure x (by omega) hx2
              refine ⟨c, hc, ?_⟩
              intro b hb
              have h5 := hcs b hb
              omega
          split at hrm
          · -- picked node is the clone root (no parent): free it, set new root
            rename_i hpnone
            injection hrm with h0
            subst h0
            dsimp only
            have hsub := subtree_addrs_region fuel
              (alloc_node false g.1 none (alloc_node true n none h cnt).2.1
                (alloc_node true n none h cnt).2.2).2.1
              (((pick_addr fuel (alloc_node true n none h cnt).2.1
                (alloc_node true n none h cnt).1 s).1).getD (alloc_node true n none h cnt).1)
              cnt
              (alloc_node false g.1 none (alloc_node true n none h cnt).2.1
                (alloc_node true n none h cnt).2.2).2.2
              RCc hnodeA.1 (by have := hnodeA.2; omega)
            rw [free_addrs_frame _ _ a (fun hmem => by have := hsub a hmem; omega)]
            rw [Gframe a (Or.inl (by omega))]
            exact Aframe a (Or.inl ha)
          · -- picked node has a parent: splice then free
            rename_i pa hpsome
            injection hrm with h0
            subst h0
            dsimp only
            have hpa2 : cnt ≤ pa ∧ pa < (alloc_node true n none h cnt).2.2 := by
              obtain ⟨c, hc, _, hp⟩ := Aclosure _ hnodeA.1 hnodeA.2
              rw [hcell] at hc
              injection hc with hce
              rcases hp with hp1 | ⟨b, hb, hb1, hb2⟩
              · rw [← hce, hpsome] at hp1
                exact absurd hp1 (by simp)
              · rw [← hce, hpsome] at hb
                injection hb with hbe
                subst hbe
                exact ⟨hb1, hb2⟩
            have hrw : (node_replace_subnode fuel
                (alloc_node false g.1 none (alloc_node true n none h cnt).2.1
                  (alloc_node true n none h cnt).2.2).2.1 pa
                (((pick_addr fuel (alloc_node true n none h cnt).2.1
                  (alloc_node true n none h cnt).1 s).1).getD (alloc_node true n none h cnt).1)
                (alloc_node false g.1 none (alloc_node true n none h cnt).2.1
                  (alloc_node true n none h cnt).2.2).1).2 a =
                (alloc_node false g.1 none (alloc_node true n none h cnt).2.1
                  (alloc_node true n none h cnt).2.2).2.1 a := by
              by_contra hne
              rcases replace_writes _ _ _ _ _ _ hne with h1 | h1 | h1
              · rw [Groot] at h1
                omega
              · omega
              · have h5 := descendants_region _ _ pa cnt _ RCc (by omega) (by omega) a h1
                omega
            have RC3 : region_closed (node_replace_subnode fuel
                (alloc_node false g.1 none (alloc_node true n none h cnt).2.1
                  (alloc_node true n none h cnt).2.2).2.1 pa
                (((pick_addr fuel (alloc_node true n none h cnt).2.1
                  (alloc_node true n none h cnt).1 s).1).getD (alloc_node true n none h cnt).1)
                (alloc_node false g.1 none (alloc_node true n none h cnt).2.1
                  (alloc_node true n none h cnt).2.2).1).2 cnt
                (alloc_node false g.1 none (alloc_node true n none h cnt).2.1
                  (alloc_node true n none h cnt).2.2).2.2 := by
              intro x hx1 hx2
              obtain ⟨c, hc, hcs⟩ := RCc x hx1 hx2
              rcases replace_cells fuel _ pa _ _ x with h1 | ⟨c0, c02, hc0, hc02, hor⟩
              · exact ⟨c, by rw [h1]; exact hc, hcs⟩
              · rw [hc] at hc0
                injection hc0 with hc0e
                subst hc0e
                refine ⟨c02, hc02, ?_⟩
                intro b hb
                rcases hor with hs | hs
                · rw [hs] at hb
                  exact hcs b hb
                · rw [hs] at hb
                  rcases mem_of_mem_replace _ b hb with hb2 | hb2
                  · exact hcs b hb2
                  · subst hb2
                    rw [Groot]
                    omega
            have hsub := subtree_addrs_region fuel _ _ cnt _ RC3 hnodeA.1
              (by have := hnodeA.2; omega)
            rw [free_addrs_frame _ _ a (fun hmem => by have := hsub a hmem; omega)]
            rw [hrw]
            rw [Gframe a (Or.inl (by omega))]
            exact Aframe a (Or.inl ha)
  exact ⟨main, fun hbound a ha => main a (hbound a ha)⟩

/-- Witness store for C3: one live cell (address 0, a childless `START`
node), allocation counter 1; the mutation succeeds with an odd draw
stream.  -/
def c3_heap : Heap := fun a =>
  if a = 0 then some ⟨START, 0, 1, [], 0, none, []⟩ else none

def c3_tree : htree := ⟨0, 0, [], 0⟩

def c3_res : htree × Heap × Nat × Rand :=
  (random_mutation_heap 5 c3_tree c3_heap 1 (fun _ => 1)).getD
    (c3_tree, c3_heap, 0, fun _ => 0)

theorem c3_witness :
    (∀ a, a < 1 → c3_res.2.1 a = c3_heap a) ∧
    ((∀ a, c3_heap a ≠ none → a < 1) → ∀ a, c3_heap a ≠ none → c3_res.2.1 a = c3_heap a) :=
  c3_random_mutation_frame 5 c3_tree c3_heap 1 (fun _ => 1) c3_res rfl

end GrammarMutator
